import Mathlib

/-!
Verification of the rust_puzzle sudoku engine.

This file shallowly embeds the Rust sources of the repository
(src/rust_puzzle/src/lib.rs, utilities.rs, solver/mod.rs,
sudoku_generator.rs, constraint/mod.rs) into Lean 4.

Embedding conventions:
* Rust `usize` is modelled as `Nat`; `u64` words are modelled as `Nat`
  together with the invariant `word < 2 ^ 64` where it matters.
* `Result<T, E>` is modelled as `Except E T`.
* Mutation of `&mut self` is modelled by returning the updated value
  (state passing).
* A Rust panic (`unwrap()` on an error / out-of-bounds vector index) is
  modelled by returning a default value; every theorem below only
  exercises inputs on which the Rust code does not panic, except where a
  comment says otherwise.
* Recursion of the solver and the generator is over the cell coordinates
  `(column, row)`; because the measure is not structurally decreasing for
  arbitrary coordinates, the Lean embedding adds an explicit fuel
  parameter that decreases once per visited cell.  `size * size + 1` fuel
  is always sufficient and is what the entry points pass.
-/

deriving instance DecidableEq for Except

namespace RustPuzzle

/-- SudokuError from error.rs. -/
inductive SudokuError where
  | InvalidDimensions
  | InvalidNumber
  | OutOfBounds
  | UnsatisfiableConstraint
deriving DecidableEq, Repr

/-- SudokuParseError from error.rs. -/
inductive SudokuParseError where
  | WrongNumberOfParts
  | WrongNumberOfCells
  | MalformedDimensions
  | InvalidDimensions
  | NumberFormatError
  | InvalidNumber
deriving DecidableEq, Repr

abbrev SudokuResult (V : Type) := Except SudokuError V

abbrev SudokuParseResult (V : Type) := Except SudokuParseError V

/-- SudokuGrid from lib.rs: block dimensions, cached size, and the
row-major vector of `size * size` optional digits. -/
structure SudokuGrid where
  block_width : Nat
  block_height : Nat
  size : Nat
  cells : List (Option Nat)
deriving DecidableEq, Repr

/-- Embedding of `index` from lib.rs lines 232-239.  Note the source uses
`column < size || row < size` (logical OR), so the error is returned only
when both coordinates are out of range. -/
def index (column row size : Nat) : SudokuResult Nat :=
  if column < size || row < size then
    Except.ok (row * size + column)
  else
    Except.error SudokuError.OutOfBounds

namespace SudokuGrid

/-- Embedding of `SudokuGrid::new`. -/
def new (block_width block_height : Nat) : SudokuResult SudokuGrid :=
  if block_width == 0 || block_height == 0 then
    Except.error SudokuError.InvalidDimensions
  else
    let size := block_width * block_height
    Except.ok {
      block_width := block_width
      block_height := block_height
      size := size
      cells := List.replicate (size * size) none }

/-- Embedding of `SudokuGrid::get_cell`.  The Rust `self.cells[index]`
panics when `index` is not smaller than the vector length; the panic is
modelled by `List.getD _ _ none`. -/
def get_cell (g : SudokuGrid) (column row : Nat) : SudokuResult (Option Nat) :=
  match index column row g.size with
  | Except.error e => Except.error e
  | Except.ok i => Except.ok (g.cells.getD i none)

/-- Embedding of `SudokuGrid::has_number`. -/
def has_number (g : SudokuGrid) (column row number : Nat) : SudokuResult Bool :=
  match g.get_cell column row with
  | Except.error e => Except.error e
  | Except.ok (some content) => Except.ok (number == content)
  | Except.ok none => Except.ok false

/-- Embedding of `SudokuGrid::set_cell` (state-passing; the Rust
`self.cells[index] = Some(number)` panic is modelled by `List.set`, which
is the identity on an out-of-range index). -/
def set_cell (g : SudokuGrid) (column row number : Nat) : SudokuResult SudokuGrid :=
  match index column row g.size with
  | Except.error e => Except.error e
  | Except.ok i =>
    if number == 0 || number > g.size then
      Except.error SudokuError.InvalidNumber
    else
      Except.ok { g with cells := g.cells.set i (some number) }

/-- Embedding of `SudokuGrid::clear_cell` (state-passing). -/
def clear_cell (g : SudokuGrid) (column row : Nat) : SudokuResult SudokuGrid :=
  match index column row g.size with
  | Except.error e => Except.error e
  | Except.ok i => Except.ok { g with cells := g.cells.set i none }

/-- Embedding of `SudokuGrid::is_full`. -/
def is_full (g : SudokuGrid) : Bool :=
  !(g.cells.any fun c => c == none)

/-- Embedding of `SudokuGrid::is_empty`. -/
def is_empty (g : SudokuGrid) : Bool :=
  g.cells.all fun c => c == none

/-- Embedding of `SudokuGrid::verify_dimensions`. -/
def verify_dimensions (g other : SudokuGrid) : SudokuResult Unit :=
  if g.block_width ≠ other.block_width || g.block_height ≠ other.block_height then
    Except.error SudokuError.InvalidDimensions
  else
    Except.ok ()

/-- Embedding of `SudokuGrid::is_subset` (zip of the two cell vectors). -/
def is_subset (g other : SudokuGrid) : SudokuResult Bool :=
  match g.verify_dimensions other with
  | Except.error e => Except.error e
  | Except.ok _ =>
    Except.ok ((g.cells.zip other.cells).all fun p =>
      match p.1 with
      | some self_number =>
        match p.2 with
        | some other_number => self_number == other_number
        | none => false
      | none => true)

end SudokuGrid

/-- Rust string slices are modelled as lists of characters, so that all
string processing below is structurally recursive and can be evaluated
by the kernel.  A Lean string literal `s` denotes the Rust string with
contents `s.data`. -/
abbrev Str := List Char

/-- Model of Rust `str::split(sep)`: splits at every occurrence of the
separator, keeping empty pieces (so the result always has one more
piece than there are separators, and splitting the empty string yields
one empty piece, as in Rust). -/
def strSplit (sep : Char) : Str → List Str
  | [] => [[]]
  | c :: rest =>
    match strSplit sep rest with
    | [] => [[]]
    | h :: t => if c = sep then [] :: h :: t else (c :: h) :: t

/-- Model of Rust `str::trim`: whitespace removed from both ends. -/
def strTrim (s : Str) : Str :=
  ((s.dropWhile Char.isWhitespace).reverse.dropWhile Char.isWhitespace).reverse

/-- Model of Rust `str::parse::<usize>()`: an optional leading `+`
followed by at least one ASCII digit.  Any other character yields an
error, which the caller converts to NumberFormatError via the `From`
impl in error.rs; the embedding returns NumberFormatError directly.
Machine-width overflow of `usize` is not modelled. -/
def parseUsize (s : Str) : SudokuParseResult Nat :=
  let chars := if s.head? = some '+' then s.tail else s
  if chars.isEmpty || !(chars.all Char.isDigit) then
    Except.error SudokuParseError.NumberFormatError
  else
    Except.ok (chars.foldl (fun acc c => 10 * acc + (c.toNat - 48)) 0)

/-- Embedding of `parse_dimensions` from lib.rs lines 241-249 (the
source's `spilt` / `part[0]` typos are transcribed as the `split` /
`parts[0]` they must be for the file to compile). -/
def parse_dimensions (code : Str) : SudokuParseResult (Nat × Nat) :=
  if (strSplit 'x' code).length ≠ 2 then
    Except.error SudokuParseError.MalformedDimensions
  else
    match parseUsize ((strSplit 'x' code).getD 0 []) with
    | Except.error e => Except.error e
    | Except.ok w =>
      match parseUsize ((strSplit 'x' code).getD 1 []) with
      | Except.error e => Except.error e
      | Except.ok h => Except.ok (w, h)

/-- Embedding of the cell loop of `SudokuGrid::parse` (lib.rs lines
285-299): each comma-separated entry is trimmed, blank entries are
skipped, and every other entry must parse to a digit in `[1, size]`. -/
def fill_cells (size : Nat) : List Str → Nat → List (Option Nat) →
    SudokuParseResult (List (Option Nat))
  | [], _, cells => Except.ok cells
  | number_str :: rest, i, cells =>
    if (strTrim number_str).isEmpty then
      fill_cells size rest (i + 1) cells
    else
      match parseUsize (strTrim number_str) with
      | Except.error e => Except.error e
      | Except.ok number =>
        if number == 0 || number > size then
          Except.error SudokuParseError.InvalidNumber
        else
          fill_cells size rest (i + 1) (cells.set i (some number))

/-- Embedding of `SudokuGrid::parse` (lib.rs lines 268-306).  The
source's uncompilable `parts.len() != {` is transcribed as
`parts.len() != 2`, the comparison its own unit tests require. -/
def SudokuGrid.parse (code : Str) : SudokuParseResult SudokuGrid :=
  if (strSplit ';' code).length ≠ 2 then
    Except.error SudokuParseError.WrongNumberOfParts
  else
    match parse_dimensions ((strSplit ';' code).getD 0 []) with
    | Except.error e => Except.error e
    | Except.ok (block_width, block_height) =>
      match SudokuGrid.new block_width block_height with
      | Except.ok grid =>
        if (strSplit ',' ((strSplit ';' code).getD 1 [])).length ≠ grid.size * grid.size then
          Except.error SudokuParseError.WrongNumberOfCells
        else
          match fill_cells grid.size (strSplit ',' ((strSplit ';' code).getD 1 [])) 0 grid.cells with
          | Except.error e => Except.error e
          | Except.ok cells => Except.ok { grid with cells := cells }
      | Except.error _ => Except.error SudokuParseError.InvalidDimensions

/-- Decimal digits of a natural number, with fuel to keep the recursion
structural; `natToChars` mirrors Rust's `Display` for unsigned
integers. -/
def natToCharsAux : Nat → Nat → Str
  | 0, _ => []
  | fuel + 1, n =>
    if n < 10 then [Nat.digitChar n]
    else natToCharsAux fuel (n / 10) ++ [Nat.digitChar (n % 10)]

def natToChars (n : Nat) : Str :=
  natToCharsAux (n + 1) n

/-- Embedding of the per-cell helper `to_string` from lib.rs. -/
def cellToString : Option Nat → Str
  | some number => natToChars number
  | none => []

/-- Embedding of `SudokuGrid::to_parseable_string` (lib.rs lines
308-316).  Faithful to the source: the `format!` produces only
`"{block_width}x{block_height}"` and the joined cell list is appended
directly, with no `;` separator in between. -/
def SudokuGrid.to_parseable_string (g : SudokuGrid) : Str :=
  natToChars g.block_width ++ ['x'] ++ natToChars g.block_height
    ++ List.intercalate [','] (g.cells.map cellToString)

section ClaimC1

/-- Witness grid for the bounds-check bug: a 2x1-block grid, so
`size = 2` and the cell vector has four entries. -/
def g21 : SudokuGrid :=
  { block_width := 2, block_height := 1, size := 2
    cells := [none, none, none, none] }

end ClaimC1

/-- C1: the cell accessors are claimed to fail with OutOfBounds exactly
when `column >= size` or `row >= size`.  The source's `index` uses
`column < size || row < size`, so an access with `column = 2, row = 0` on
a grid of size 2 is accepted: `get_cell` succeeds (reading the cell at
row-major position 2, which is cell `(0, 1)`) and `set_cell` succeeds and
overwrites cell `(0, 1)`.  This theorem evaluates the code at that
failing input. -/
theorem C1_index_or_bug_eval :
    index 2 0 2 = Except.ok 2
    ∧ g21.get_cell 2 0 = Except.ok none
    ∧ (g21.set_cell 2 0 1 = Except.ok
        { block_width := 2, block_height := 1, size := 2
          cells := [none, none, some 1, none] })
    ∧ (∀ g : SudokuGrid, g.size = 2 → g.get_cell 2 0 ≠ Except.error SudokuError.OutOfBounds) := by
  refine ⟨rfl, rfl, rfl, ?_⟩
  intro g hs
  simp [SudokuGrid.get_cell, index, hs]

/-- Witness grid: the empty 1x1 grid. -/
def g11 : SudokuGrid :=
  { block_width := 1, block_height := 1, size := 1, cells := [none] }

/-- C4: the claim is `parse(to_parseable_string(g)) == Ok(g)` for every
grid.  The source's `to_parseable_string` never emits the `;` separator
between the dimensions and the cell list (its own unit test expects
`"2x2;,,,..."`), so parsing its output fails with WrongNumberOfParts for
every grid.  This theorem evaluates the code at the empty 1x1 grid. -/
theorem C4_to_parseable_string_missing_separator :
    SudokuGrid.new 1 1 = Except.ok g11
    ∧ g11.to_parseable_string = "1x1".data
    ∧ SudokuGrid.parse g11.to_parseable_string
        = Except.error SudokuParseError.WrongNumberOfParts := by
  refine ⟨rfl, by decide, by decide⟩

theorem parseUsize_error_eq {s : Str} {e : SudokuParseError}
    (h : parseUsize s = Except.error e) : e = SudokuParseError.NumberFormatError := by
  simp only [parseUsize] at h
  split at h <;> split at h <;>
    first
      | exact ((Except.error.injEq _ _).mp h).symm
      | exact absurd h (by simp)

theorem parse_dimensions_error_eq {code : Str} {e : SudokuParseError}
    (h : parse_dimensions code = Except.error e) :
    e = SudokuParseError.MalformedDimensions ∨ e = SudokuParseError.NumberFormatError := by
  simp only [parse_dimensions] at h
  split at h
  · exact Or.inl ((Except.error.injEq _ _).mp h).symm
  · split at h
    · next heq =>
      exact Or.inr (((Except.error.injEq _ _).mp h) ▸ parseUsize_error_eq heq)
    · split at h
      · next heq =>
        exact Or.inr (((Except.error.injEq _ _).mp h) ▸ parseUsize_error_eq heq)
      · exact absurd h (by simp)

theorem fill_cells_error_eq {size : Nat} {l : List Str} {i : Nat}
    {cells : List (Option Nat)} {e : SudokuParseError}
    (h : fill_cells size l i cells = Except.error e) :
    e = SudokuParseError.NumberFormatError ∨ e = SudokuParseError.InvalidNumber := by
  induction l generalizing i cells with
  | nil => exact absurd h (by simp [fill_cells])
  | cons entry rest ih =>
    simp only [fill_cells] at h
    split at h
    · exact ih h
    · split at h
      · next heq =>
        exact Or.inl (((Except.error.injEq _ _).mp h) ▸ parseUsize_error_eq heq)
      · split at h
        · exact Or.inr ((Except.error.injEq _ _).mp h).symm
        · exact ih h

theorem parse_eq_of_two_parts {code p₀ p₁ : Str}
    (hsp : strSplit ';' code = [p₀, p₁]) :
    SudokuGrid.parse code =
      match parse_dimensions p₀ with
      | Except.error e => Except.error e
      | Except.ok (block_width, block_height) =>
        match SudokuGrid.new block_width block_height with
        | Except.ok grid =>
          if (strSplit ',' p₁).length ≠ grid.size * grid.size then
            Except.error SudokuParseError.WrongNumberOfCells
          else
            match fill_cells grid.size (strSplit ',' p₁) 0 grid.cells with
            | Except.error e => Except.error e
            | Except.ok cells => Except.ok { grid with cells := cells }
        | Except.error _ => Except.error SudokuParseError.InvalidDimensions := by
  simp [SudokuGrid.parse, hsp]

theorem new_eq (block_width block_height : Nat) :
    SudokuGrid.new block_width block_height =
      if block_width = 0 ∨ block_height = 0 then
        Except.error SudokuError.InvalidDimensions
      else
        Except.ok {
          block_width := block_width
          block_height := block_height
          size := block_width * block_height
          cells := List.replicate (block_width * block_height * (block_width * block_height)) none } := by
  simp [SudokuGrid.new]

theorem length_two_exists {l : List Str} (h : l.length = 2) :
    ∃ p₀ p₁, l = [p₀, p₁] := by
  match l, h with
  | [p₀, p₁], _ => exact ⟨p₀, p₁, rfl⟩

theorem parse_dimensions_cases (p : Str) :
    (parse_dimensions p = Except.error SudokuParseError.MalformedDimensions
      ∧ (strSplit 'x' p).length ≠ 2)
    ∨ (parse_dimensions p = Except.error SudokuParseError.NumberFormatError
      ∧ (strSplit 'x' p).length = 2)
    ∨ (∃ w h, parse_dimensions p = Except.ok (w, h)) := by
  by_cases hl : (strSplit 'x' p).length = 2
  · cases hu0 : parseUsize ((strSplit 'x' p).getD 0 []) with
    | error e0 =>
      have he0 := parseUsize_error_eq hu0
      subst he0
      refine Or.inr (Or.inl ⟨?_, hl⟩)
      unfold parse_dimensions
      rw [if_neg (by simp [hl]), hu0]
    | ok w =>
      cases hu1 : parseUsize ((strSplit 'x' p).getD 1 []) with
      | error e1 =>
        have he1 := parseUsize_error_eq hu1
        subst he1
        refine Or.inr (Or.inl ⟨?_, hl⟩)
        unfold parse_dimensions
        rw [if_neg (by simp [hl]), hu0, hu1]
      | ok h =>
        refine Or.inr (Or.inr ⟨w, h, ?_⟩)
        unfold parse_dimensions
        rw [if_neg (by simp [hl]), hu0, hu1]
  · exact Or.inl ⟨by simp [parse_dimensions, hl], hl⟩

theorem parse_eq_of_dims_ok {code p₀ p₁ : Str} {w h : Nat}
    (hsp : strSplit ';' code = [p₀, p₁])
    (hd : parse_dimensions p₀ = Except.ok (w, h)) :
    SudokuGrid.parse code =
      match SudokuGrid.new w h with
      | Except.ok grid =>
        if (strSplit ',' p₁).length ≠ grid.size * grid.size then
          Except.error SudokuParseError.WrongNumberOfCells
        else
          match fill_cells grid.size (strSplit ',' p₁) 0 grid.cells with
          | Except.error e => Except.error e
          | Except.ok cells => Except.ok { grid with cells := cells }
      | Except.error _ => Except.error SudokuParseError.InvalidDimensions := by
  rw [parse_eq_of_two_parts hsp, hd]

theorem parse_eq_of_new_err {code p₀ p₁ : Str} {w h : Nat}
    (hsp : strSplit ';' code = [p₀, p₁])
    (hd : parse_dimensions p₀ = Except.ok (w, h))
    (hz : w = 0 ∨ h = 0) :
    SudokuGrid.parse code = Except.error SudokuParseError.InvalidDimensions := by
  rw [parse_eq_of_dims_ok hsp hd, new_eq, if_pos hz]

theorem parse_eq_of_new_ok {code p₀ p₁ : Str} {w h : Nat}
    (hsp : strSplit ';' code = [p₀, p₁])
    (hd : parse_dimensions p₀ = Except.ok (w, h))
    (hz : ¬(w = 0 ∨ h = 0)) :
    SudokuGrid.parse code =
      (if (strSplit ',' p₁).length ≠ w * h * (w * h) then
        Except.error SudokuParseError.WrongNumberOfCells
      else
        match fill_cells (w * h) (strSplit ',' p₁) 0
            (List.replicate (w * h * (w * h)) none) with
        | Except.error e => Except.error e
        | Except.ok cells => Except.ok {
            block_width := w, block_height := h, size := w * h,
            cells := cells }) := by
  rw [parse_eq_of_dims_ok hsp hd, new_eq, if_neg hz]

/-- Exhaustive classification of the branches of `SudokuGrid::parse`:
exactly one of the six scenarios applies, and it determines the
result. -/
theorem parse_classified (code : Str) :
    ((strSplit ';' code).length ≠ 2
      ∧ SudokuGrid.parse code = Except.error SudokuParseError.WrongNumberOfParts)
    ∨ (∃ p₀ p₁, strSplit ';' code = [p₀, p₁] ∧
        (((strSplit 'x' p₀).length ≠ 2
            ∧ SudokuGrid.parse code = Except.error SudokuParseError.MalformedDimensions)
        ∨ ((strSplit 'x' p₀).length = 2
            ∧ parse_dimensions p₀ = Except.error SudokuParseError.NumberFormatError
            ∧ SudokuGrid.parse code = Except.error SudokuParseError.NumberFormatError)
        ∨ (∃ w h, parse_dimensions p₀ = Except.ok (w, h) ∧
            (((w = 0 ∨ h = 0)
                ∧ SudokuGrid.parse code = Except.error SudokuParseError.InvalidDimensions)
            ∨ (¬(w = 0 ∨ h = 0) ∧ (strSplit ',' p₁).length ≠ w * h * (w * h)
                ∧ SudokuGrid.parse code = Except.error SudokuParseError.WrongNumberOfCells)
            ∨ (¬(w = 0 ∨ h = 0) ∧ (strSplit ',' p₁).length = w * h * (w * h)
                ∧ SudokuGrid.parse code =
                    (match fill_cells (w * h) (strSplit ',' p₁) 0
                        (List.replicate (w * h * (w * h)) none) with
                      | Except.error e => Except.error e
                      | Except.ok cells => Except.ok {
                          block_width := w, block_height := h, size := w * h,
                          cells := cells })))))) := by
  by_cases hp : (strSplit ';' code).length = 2
  · obtain ⟨p₀, p₁, hsp⟩ := length_two_exists hp
    refine Or.inr ⟨p₀, p₁, hsp, ?_⟩
    rcases parse_dimensions_cases p₀ with ⟨hd, hl⟩ | ⟨hd, hl⟩ | ⟨w, h, hd⟩
    · exact Or.inl ⟨hl, by rw [parse_eq_of_two_parts hsp, hd]⟩
    · exact Or.inr (Or.inl ⟨hl, hd, by rw [parse_eq_of_two_parts hsp, hd]⟩)
    · refine Or.inr (Or.inr ⟨w, h, hd, ?_⟩)
      by_cases hz : w = 0 ∨ h = 0
      · exact Or.inl ⟨hz, parse_eq_of_new_err hsp hd hz⟩
      · by_cases hc : (strSplit ',' p₁).length = w * h * (w * h)
        · refine Or.inr (Or.inr ⟨hz, hc, ?_⟩)
          rw [parse_eq_of_new_ok hsp hd hz]
          simp only [ne_eq, hc, not_true_eq_false, if_false]
        · refine Or.inr (Or.inl ⟨hz, hc, ?_⟩)
          rw [parse_eq_of_new_ok hsp hd hz]
          simp only [ne_eq, hc, not_false_eq_true, if_true]
  · exact Or.inl ⟨hp, by simp [SudokuGrid.parse, hp]⟩

/-- C7 (amended): the error conditions of `SudokuGrid::parse`, as the
code implements them.  The amendment relative to the claim: a dimensions
part that splits into exactly two components that are not both valid
integers produces NumberFormatError (as the repository's own unit test
`parse_number_format_error` expects), not MalformedDimensions;
MalformedDimensions is produced exactly when the split does not have two
components.  The remaining clauses are as claimed, with cell entry
errors reported at the first offending entry of the comma-separated
list, after the cell-count check. -/
theorem C7_parse_error_conditions :
    (∀ code : Str,
      SudokuGrid.parse code = Except.error SudokuParseError.WrongNumberOfParts
        ↔ (strSplit ';' code).length ≠ 2)
    ∧ (∀ code p₀ p₁ : Str, strSplit ';' code = [p₀, p₁] →
        (SudokuGrid.parse code = Except.error SudokuParseError.MalformedDimensions
          ↔ (strSplit 'x' p₀).length ≠ 2))
    ∧ (∀ code p₀ p₁ : Str, strSplit ';' code = [p₀, p₁] →
        (∃ e, parse_dimensions p₀ = Except.error e
            ∧ e = SudokuParseError.NumberFormatError) →
        SudokuGrid.parse code = Except.error SudokuParseError.NumberFormatError)
    ∧ (∀ (code p₀ p₁ : Str) (w h : Nat), strSplit ';' code = [p₀, p₁] →
        parse_dimensions p₀ = Except.ok (w, h) →
        (SudokuGrid.parse code = Except.error SudokuParseError.InvalidDimensions
          ↔ (w = 0 ∨ h = 0)))
    ∧ (∀ (code p₀ p₁ : Str) (w h : Nat), strSplit ';' code = [p₀, p₁] →
        parse_dimensions p₀ = Except.ok (w, h) → ¬(w = 0 ∨ h = 0) →
        (SudokuGrid.parse code = Except.error SudokuParseError.WrongNumberOfCells
          ↔ (strSplit ',' p₁).length ≠ w * h * (w * h)))
    ∧ (∀ (size : Nat) (entry : Str) (rest : List Str) (i : Nat)
        (cells : List (Option Nat)),
        (strTrim entry).isEmpty = false →
        parseUsize (strTrim entry) = Except.error SudokuParseError.NumberFormatError →
        fill_cells size (entry :: rest) i cells
          = Except.error SudokuParseError.NumberFormatError)
    ∧ (∀ (size : Nat) (entry : Str) (rest : List Str) (i : Nat)
        (cells : List (Option Nat)) (n : Nat),
        (strTrim entry).isEmpty = false →
        parseUsize (strTrim entry) = Except.ok n → (n = 0 ∨ n > size) →
        fill_cells size (entry :: rest) i cells
          = Except.error SudokuParseError.InvalidNumber) := by
  refine ⟨?_, ?_, ?_, ?_, ?_, ?_, ?_⟩
  · intro code
    constructor
    · intro h
      rcases parse_classified code with ⟨hl, _⟩ | ⟨p₀, p₁, hsp, hcase⟩
      · exact hl
      · exfalso
        rcases hcase with ⟨_, hres⟩ | ⟨_, _, hres⟩ | ⟨w, hh, _, hcase2⟩
        · exact absurd (h.symm.trans hres) (by simp)
        · exact absurd (h.symm.trans hres) (by simp)
        · rcases hcase2 with ⟨_, hres⟩ | ⟨_, _, hres⟩ | ⟨_, _, hres⟩
          · exact absurd (h.symm.trans hres) (by simp)
          · exact absurd (h.symm.trans hres) (by simp)
          · cases hf : fill_cells (w * hh) (strSplit ',' p₁) 0
                (List.replicate (w * hh * (w * hh)) none) with
            | error e =>
              rw [hf] at hres
              rcases fill_cells_error_eq hf with h1 | h1 <;> subst h1 <;>
                exact absurd (h.symm.trans hres) (by simp)
            | ok cells =>
              rw [hf] at hres
              exact absurd (h.symm.trans hres) (by simp)
    · intro hl
      rcases parse_classified code with ⟨_, hres⟩ | ⟨p₀, p₁, hsp, _⟩
      · exact hres
      · exact absurd (by rw [hsp]; rfl) hl
  · intro code p₀ p₁ hsp
    constructor
    · intro h
      rcases parse_classified code with ⟨hl, _⟩ | ⟨q₀, q₁, hsq, hcase⟩
      · exact absurd (by rw [hsp]; rfl) hl
      · obtain ⟨hq₀, hq₁⟩ : q₀ = p₀ ∧ q₁ = p₁ := by
          have := hsp.symm.trans hsq
          exact ⟨(List.cons.injEq _ _ _ _).mp this |>.1.symm,
            ((List.cons.injEq _ _ _ _).mp ((List.cons.injEq _ _ _ _).mp this).2).1.symm⟩
        rw [hq₀, hq₁] at hcase
        rcases hcase with ⟨hl, _⟩ | ⟨_, _, hres⟩ | ⟨w, hh, hd, hcase2⟩
        · exact hl
        · exact absurd (h.symm.trans hres) (by simp)
        · exfalso
          rcases hcase2 with ⟨_, hres⟩ | ⟨_, _, hres⟩ | ⟨_, _, hres⟩
          · exact absurd (h.symm.trans hres) (by simp)
          · exact absurd (h.symm.trans hres) (by simp)
          · cases hf : fill_cells (w * hh) (strSplit ',' p₁) 0
                (List.replicate (w * hh * (w * hh)) none) with
            | error e =>
              rw [hf] at hres
              rcases fill_cells_error_eq hf with h1 | h1 <;> subst h1 <;>
                exact absurd (h.symm.trans hres) (by simp)
            | ok cells =>
              rw [hf] at hres
              exact absurd (h.symm.trans hres) (by simp)
    · intro hlen
      have hd : parse_dimensions p₀ = Except.error SudokuParseError.MalformedDimensions := by
        simp [parse_dimensions, hlen]
      rw [parse_eq_of_two_parts hsp, hd]
  · intro code p₀ p₁ hsp he
    obtain ⟨e, hd, hee⟩ := he
    subst hee
    rw [parse_eq_of_two_parts hsp, hd]
  · intro code p₀ p₁ w h hsp hd
    by_cases hz : w = 0 ∨ h = 0
    · rw [parse_eq_of_new_err hsp hd hz]
      simp [hz]
    · rw [parse_eq_of_new_ok hsp hd hz]
      constructor
      · intro hres
        exfalso
        by_cases hc : (strSplit ',' p₁).length = w * h * (w * h)
        · simp only [ne_eq, hc, not_true_eq_false, if_false] at hres
          cases hf : fill_cells (w * h) (strSplit ',' p₁) 0
              (List.replicate (w * h * (w * h)) none) with
          | error e =>
            rw [hf] at hres
            rcases fill_cells_error_eq hf with h1 | h1 <;> subst h1 <;>
              exact absurd hres (by simp)
          | ok cells => rw [hf] at hres; exact absurd hres (by simp)
        · simp only [ne_eq, hc, not_false_eq_true, if_true] at hres
          exact absurd hres (by simp)
      · intro hz2
        exact absurd hz2 hz
  · intro code p₀ p₁ w h hsp hd hz
    rw [parse_eq_of_new_ok hsp hd hz]
    constructor
    · intro hres hc
      simp only [ne_eq, hc, not_true_eq_false, if_false] at hres
      cases hf : fill_cells (w * h) (strSplit ',' p₁) 0
          (List.replicate (w * h * (w * h)) none) with
      | error e =>
        rw [hf] at hres
        rcases fill_cells_error_eq hf with h1 | h1 <;> subst h1 <;>
          exact absurd hres (by simp)
      | ok cells => rw [hf] at hres; exact absurd hres (by simp)
    · intro hc
      simp only [ne_eq, hc, not_false_eq_true, if_true]
  · intro size entry rest i cells hne hp
    simp [fill_cells, hne, hp]
  · intro size entry rest i cells n hne hp hn
    simp only [fill_cells, hne, Bool.false_eq_true, if_false, hp]
    have hb : (n == 0 || decide (n > size)) = true := by
      rcases hn with hn | hn <;> simp [hn]
    simp [hb]

/-- C7 counterexample: on the input `"2x#;,"` the dimensions part
`"2x#"` is not two x-separated integers, so the claim requires
MalformedDimensions, but the code (matching its own unit test
`parse_number_format_error`) reports NumberFormatError, because the
split on `x` does have exactly two components and the error arises from
integer parsing of `"#"`. -/
theorem C7_dimension_error_counterexample :
    SudokuGrid.parse "2x#;,".data = Except.error SudokuParseError.NumberFormatError
    ∧ SudokuParseError.NumberFormatError ≠ SudokuParseError.MalformedDimensions := by
  exact ⟨by decide, by decide⟩

/-- Witness for C7: each error condition exercised at a concrete input
through the theorem itself. -/
theorem C7_parse_error_conditions_witness :
    SudokuGrid.parse "2x2".data = Except.error SudokuParseError.WrongNumberOfParts
    ∧ SudokuGrid.parse "2x2x2;a".data = Except.error SudokuParseError.MalformedDimensions
    ∧ SudokuGrid.parse "2x#;,".data = Except.error SudokuParseError.NumberFormatError
    ∧ SudokuGrid.parse "2x0;,".data = Except.error SudokuParseError.InvalidDimensions
    ∧ SudokuGrid.parse "2x2;,".data = Except.error SudokuParseError.WrongNumberOfCells
    ∧ fill_cells 4 ["#".data] 0 [] = Except.error SudokuParseError.NumberFormatError
    ∧ fill_cells 4 ["5".data] 0 [] = Except.error SudokuParseError.InvalidNumber := by
  obtain ⟨c1, c2, c3, c4, c5, c6, c7⟩ := C7_parse_error_conditions
  refine ⟨?_, ?_, ?_, ?_, ?_, ?_, ?_⟩
  · exact (c1 "2x2".data).mpr (by decide)
  · exact (c2 "2x2x2;a".data "2x2x2".data "a".data (by decide)).mpr (by decide)
  · exact c3 "2x#;,".data "2x#".data ",".data (by decide)
      ⟨SudokuParseError.NumberFormatError, by decide, rfl⟩
  · exact (c4 "2x0;,".data "2x0".data ",".data 2 0 (by decide) (by decide)).mpr (by decide)
  · exact (c5 "2x2;,".data "2x2".data ",".data 2 2 (by decide) (by decide) (by decide)).mpr (by decide)
  · exact c6 4 "#".data [] 0 [] (by decide) (by decide)
  · exact c7 4 "5".data [] 0 [] 5 (by decide) (by decide) (by decide)

/-! USizeSet from utilities.rs.  Words are `u64`, modelled as `Nat`
with the invariant `word < 2 ^ 64` carried by `GoodSet` below. -/

/-- USizeSet from utilities.rs. -/
structure USizeSet where
  lower : Nat
  upper : Nat
  len : Nat
  content : List Nat
deriving DecidableEq, Repr

/-- USizeSetError from utilities.rs. -/
inductive USizeSetError where
  | InvalidBounds
  | DifferentBounds
  | OutOfBounds
deriving DecidableEq, Repr

abbrev USizeSetResult (V : Type) := Except USizeSetError V

/-- Rust `!x` on a `u64`: bitwise complement of the low 64 bits. -/
def not64 (x : Nat) : Nat := x ^^^ (2 ^ 64 - 1)

/-- Rust `u64::count_ones`: population count of the 64 bits of a word. -/
def popcount64 (x : Nat) : Nat := (List.range 64).countP (fun b => x.testBit b)

namespace USizeSet

/-- Embedding of `USizeSet::new` (utilities.rs lines 110-122). -/
def new (lower upper : Nat) : USizeSetResult USizeSet :=
  if lower > upper then
    Except.error USizeSetError.InvalidBounds
  else
    Except.ok {
      lower := lower, upper := upper, len := 0
      content := List.replicate ((upper - lower + 64) >>> 6) 0 }

/-- Embedding of `USizeSet::range` (utilities.rs lines 130-155): the
loop pushing `ones_words` copies of `!0` is a `List.replicate`, followed
by the optional partial word. -/
def range (lower upper : Nat) : USizeSetResult USizeSet :=
  if lower > upper then
    Except.error USizeSetError.InvalidBounds
  else
    let ones := upper - lower + 1
    let ones_words := ones / 64
    let remaining_ones := ones - (ones_words <<< 6)
    Except.ok {
      lower := lower, upper := upper, len := ones
      content := List.replicate ones_words (2 ^ 64 - 1)
        ++ (if remaining_ones > 0 then [(1 <<< remaining_ones) - 1] else []) }

/-- Embedding of `USizeSet::compute_index`. -/
def compute_index (s : USizeSet) (number : Nat) : USizeSetResult (Nat × Nat) :=
  if number < s.lower || number > s.upper then
    Except.error USizeSetError.OutOfBounds
  else
    Except.ok ((number - s.lower) >>> 6, 1 <<< ((number - s.lower) &&& 63))

/-- Embedding of `USizeSet::contains`: out-of-range numbers yield
`false`, not an error.  The Rust `self.content[word_index]` panic is
modelled by `List.getD _ _ 0` (unreachable for well-formed sets). -/
def contains (s : USizeSet) (number : Nat) : Bool :=
  match s.compute_index number with
  | Except.ok (word_index, mask) => (s.content.getD word_index 0 &&& mask) > 0
  | Except.error _ => false

/-- Embedding of `USizeSet::insert` (state-passing). -/
def insert (s : USizeSet) (number : Nat) : USizeSetResult (Bool × USizeSet) :=
  match s.compute_index number with
  | Except.error e => Except.error e
  | Except.ok (word_index, mask) =>
    if s.content.getD word_index 0 &&& mask == 0 then
      Except.ok (true, { s with
        len := s.len + 1
        content := s.content.set word_index (s.content.getD word_index 0 ||| mask) })
    else
      Except.ok (false, s)

/-- Embedding of `USizeSet::remove` (state-passing). -/
def remove (s : USizeSet) (number : Nat) : USizeSetResult (Bool × USizeSet) :=
  match s.compute_index number with
  | Except.error e => Except.error e
  | Except.ok (word_index, mask) =>
    if s.content.getD word_index 0 &&& mask > 0 then
      Except.ok (true, { s with
        len := s.len - 1
        content := s.content.set word_index (s.content.getD word_index 0 &&& not64 mask) })
    else
      Except.ok (false, s)

/-- Embedding of `USizeSet::singleton`. -/
def singleton (lower upper content : Nat) : USizeSetResult USizeSet :=
  match new lower upper with
  | Except.error e => Except.error e
  | Except.ok result =>
    match result.insert content with
    | Except.error e => Except.error e
    | Except.ok (_, result) => Except.ok result

/-- Embedding of `USizeSet::clear`: the loop zeroes every word in
place. -/
def clear (s : USizeSet) : USizeSet :=
  { s with content := s.content.map (fun _ => 0), len := 0 }

/-- Embedding of `USizeSet::count`. -/
def count (s : USizeSet) : Nat := (s.content.map popcount64).sum

/-- Embedding of `USizeSet::op_assign` (state-passing).  The Rust
`iter_mut().zip(other.iter())` rewrites the first `min` words and leaves
any remaining words of `self` unchanged; `changed` accumulates whether
any word was altered. -/
def op_assign (s other : USizeSet) (op : Nat → Nat → Nat) :
    USizeSetResult (Bool × USizeSet) :=
  if s.lower ≠ other.lower || s.upper ≠ other.upper then
    Except.error USizeSetError.DifferentBounds
  else
    let newContent := (s.content.zipWith op other.content)
      ++ s.content.drop other.content.length
    let changed := (s.content.zip other.content).any (fun p => op p.1 p.2 ≠ p.1)
    let s1 : USizeSet := { s with content := newContent }
    Except.ok (changed, { s1 with len := s1.count })

/-- Embedding of `USizeSet::union_assign`. -/
def union_assign (s other : USizeSet) : USizeSetResult (Bool × USizeSet) :=
  s.op_assign other (· ||| ·)

/-- Embedding of `USizeSet::intersect_assign`. -/
def intersect_assign (s other : USizeSet) : USizeSetResult (Bool × USizeSet) :=
  s.op_assign other (· &&& ·)

/-- Embedding of `USizeSet::difference_assign` (the closure
`|a, b| a & !b`). -/
def difference_assign (s other : USizeSet) : USizeSetResult (Bool × USizeSet) :=
  s.op_assign other (fun a b => a &&& not64 b)

/-- Embedding of `USizeSet::symmetric_difference_assign`. -/
def symmetric_difference_assign (s other : USizeSet) : USizeSetResult (Bool × USizeSet) :=
  s.op_assign other (· ^^^ ·)

end USizeSet

/-- Embedding of the loop `for i in 0..(len - 1)` of
`complement_assign`: every word except the last is complemented. -/
def flipWords : List Nat → List Nat
  | [] => []
  | [x] => [x]
  | x :: y :: rest => not64 x :: flipWords (y :: rest)

namespace USizeSet

/-- Embedding of `USizeSet::complement_assign` (utilities.rs lines
324-339).  Faithful to the source: the loop complements words
`0..(len - 1)` only, and the final word is XOR-adjusted with
`u64::MAX >> (64 - rem_bits)` only when `rem_bits > 0`; when the range
size is a multiple of 64 the final word is left untouched. -/
def complement_assign (s : USizeSet) : USizeSet :=
  let len := s.content.length
  let c1 := flipWords s.content
  let rem_bits := (s.upper - s.lower + 1) % 64
  let c2 :=
    if rem_bits > 0 then
      c1.set (len - 1) ((c1.getD (len - 1) 0) ^^^ ((2 ^ 64 - 1) >>> (64 - rem_bits)))
    else c1
  let s1 : USizeSet := { s with content := c2 }
  { s1 with len := s1.count }

/-- Embedding of `USizeSet::complement` (clone, then assign). -/
def complement (s : USizeSet) : USizeSet := s.complement_assign

end USizeSet

/-- Number of backing words allocated for the bounds, as in `new`. -/
def requiredWords (lower upper : Nat) : Nat := (upper - lower + 64) >>> 6

/-- Structural well-formedness of a USizeSet: ordered bounds, the word
count of `new`, 64-bit words, all out-of-range high bits of the final
word zero, and the cached `len` equal to the population count. -/
def GoodSet (s : USizeSet) : Prop :=
  s.lower ≤ s.upper
  ∧ s.content.length = requiredWords s.lower s.upper
  ∧ (∀ w ∈ s.content, w < 2 ^ 64)
  ∧ (∀ b < 64, s.upper - s.lower + 1 ≤ 64 * (s.content.length - 1) + b →
      (s.content.getD (s.content.length - 1) 0).testBit b = false)
  ∧ s.len = s.count

instance (s : USizeSet) : Decidable (GoodSet s) := by
  unfold GoodSet
  infer_instance

/-- Sets reachable from the constructors by the mutating operations of
utilities.rs. -/
inductive Reachable : USizeSet → Prop where
  | ofNew {lower upper : Nat} {s : USizeSet} :
      USizeSet.new lower upper = Except.ok s → Reachable s
  | ofRange {lower upper : Nat} {s : USizeSet} :
      USizeSet.range lower upper = Except.ok s → Reachable s
  | ofSingleton {lower upper c : Nat} {s : USizeSet} :
      USizeSet.singleton lower upper c = Except.ok s → Reachable s
  | ofInsert {s s' : USizeSet} {n : Nat} {b : Bool} :
      Reachable s → s.insert n = Except.ok (b, s') → Reachable s'
  | ofRemove {s s' : USizeSet} {n : Nat} {b : Bool} :
      Reachable s → s.remove n = Except.ok (b, s') → Reachable s'
  | ofClear {s : USizeSet} : Reachable s → Reachable s.clear
  | ofUnion {s t s' : USizeSet} {b : Bool} :
      Reachable s → Reachable t → s.union_assign t = Except.ok (b, s') → Reachable s'
  | ofIntersect {s t s' : USizeSet} {b : Bool} :
      Reachable s → Reachable t → s.intersect_assign t = Except.ok (b, s') → Reachable s'
  | ofDifference {s t s' : USizeSet} {b : Bool} :
      Reachable s → Reachable t → s.difference_assign t = Except.ok (b, s') → Reachable s'
  | ofSymmetricDifference {s t s' : USizeSet} {b : Bool} :
      Reachable s → Reachable t →
      s.symmetric_difference_assign t = Except.ok (b, s') → Reachable s'
  | ofComplement {s : USizeSet} : Reachable s → Reachable s.complement_assign

theorem shiftRight6 (n : Nat) : n >>> 6 = n / 64 := by
  rw [Nat.shiftRight_eq_div_pow]

theorem requiredWords_eq (lower upper : Nat) :
    requiredWords lower upper = (upper - lower + 64) / 64 := by
  rw [requiredWords, shiftRight6]

theorem shiftLeft6 (n : Nat) : n <<< 6 = 64 * n := by
  rw [Nat.shiftLeft_eq]; ring

theorem and63 (n : Nat) : n &&& 63 = n % 64 := by
  have : (63 : Nat) = 2 ^ 6 - 1 := by norm_num
  rw [this, Nat.and_pow_two_sub_one_eq_mod]

theorem testBit_mask64 {rem : Nat} (h1 : 0 < rem) (h2 : rem ≤ 64) (i : Nat) :
    ((2 ^ 64 - 1) >>> (64 - rem)).testBit i = decide (i < rem) := by
  rw [Nat.testBit_shiftRight, Nat.testBit_two_pow_sub_one]
  exact decide_eq_decide.mpr (by omega)

theorem countP_range_lt (m k : Nat) :
    (List.range m).countP (fun b => decide (b < k)) = min m k := by
  induction m with
  | zero => simp
  | succ m ih =>
    rw [List.range_succ, List.countP_append, ih]
    by_cases h : m < k
    · simp [h]; omega
    · simp [h]; omega

theorem popcount64_zero : popcount64 0 = 0 := by decide

theorem popcount64_two_pow_sub_one {k : Nat} (h : k ≤ 64) :
    popcount64 (2 ^ k - 1) = k := by
  unfold popcount64
  have hcong : (List.range 64).countP (fun b => (2 ^ k - 1).testBit b)
      = (List.range 64).countP (fun b => decide (b < k)) :=
    List.countP_congr (fun x _ => by simp)
  rw [hcong, countP_range_lt]
  omega

theorem popcount64_max : popcount64 (2 ^ 64 - 1) = 64 :=
  @popcount64_two_pow_sub_one 64 (by norm_num)

theorem countP_flip_true {p q : Nat → Bool} {b : Nat} (m : Nat) (hb : b < m)
    (hpq : ∀ i, i < m → i ≠ b → p i = q i) (hp : p b = false) (hq : q b = true) :
    (List.range m).countP q = (List.range m).countP p + 1 := by
  induction m with
  | zero => omega
  | succ m ih =>
    rw [List.range_succ, List.countP_append, List.countP_append]
    by_cases hbm : b = m
    · subst hbm
      have hcong : (List.range b).countP p = (List.range b).countP q :=
        List.countP_congr (fun x hx => by
          rw [hpq x (by simp at hx; omega) (by simp at hx; omega)])
      rw [← hcong]
      simp [List.countP_cons, hp, hq]
    · have hm := hpq m (by omega) (Ne.symm hbm)
      rw [ih (by omega) (fun i hi hib => hpq i (by omega) hib)]
      have h2 : List.countP q [m] = List.countP p [m] := by
        simp [List.countP_cons, hm]
      rw [h2]
      omega

theorem sum_map_set_add_one {l : List Nat} {i y : Nat} (f : Nat → Nat)
    (hi : i < l.length) (hf : f y = f (l.getD i 0) + 1) :
    ((l.set i y).map f).sum = (l.map f).sum + 1 := by
  induction l generalizing i with
  | nil => simp at hi
  | cons a l ih =>
    cases i with
    | zero => simp at hf ⊢; omega
    | succ i =>
      simp only [List.set_cons_succ, List.map_cons, List.sum_cons]
      rw [ih (by simpa using hi) (by simpa using hf)]
      omega

theorem sum_map_set_sub_one {l : List Nat} {i y : Nat} (f : Nat → Nat)
    (hi : i < l.length) (hf : f (l.getD i 0) = f y + 1) :
    ((l.set i y).map f).sum + 1 = (l.map f).sum := by
  induction l generalizing i with
  | nil => simp at hi
  | cons a l ih =>
    cases i with
    | zero => simp at hf ⊢; omega
    | succ i =>
      simp only [List.set_cons_succ, List.map_cons, List.sum_cons]
      rw [← ih (by simpa using hi) (by simpa using hf)]
      omega

theorem sum_replicate_nat (n x : Nat) : (List.replicate n x).sum = n * x := by
  induction n with
  | zero => simp
  | succ n ih => simp [List.replicate_succ, ih, Nat.succ_mul]; omega

theorem and_two_pow_pos (x b : Nat) : decide (0 < x &&& 2 ^ b) = x.testBit b := by
  cases htb : x.testBit b with
  | false =>
    have hz : x &&& 2 ^ b = 0 := by
      apply Nat.eq_of_testBit_eq
      intro i
      simp only [Nat.testBit_and, Nat.testBit_two_pow, Nat.zero_testBit]
      by_cases hib : b = i
      · subst hib; simp [htb]
      · simp [hib]
    simp [hz]
  | true =>
    have hbit : (x &&& 2 ^ b).testBit b = true := by
      simp [Nat.testBit_and, htb, Nat.testBit_two_pow]
    have hne : x &&& 2 ^ b ≠ 0 := by
      intro h0
      rw [h0] at hbit
      simp at hbit
    simp [Nat.pos_of_ne_zero hne]

/-- contains as a bit test: membership of `n` is exactly the bit at
position `(n - lower) % 64` of word `(n - lower) / 64`, for in-range
`n`, and false otherwise. -/
theorem contains_iff_testBit (s : USizeSet) (n : Nat) :
    s.contains n =
      ((decide (s.lower ≤ n) && decide (n ≤ s.upper)) &&
        (s.content.getD ((n - s.lower) / 64) 0).testBit ((n - s.lower) % 64)) := by
  unfold USizeSet.contains USizeSet.compute_index
  by_cases h1 : n < s.lower
  · rw [if_pos (by simp [h1])]
    simp [show ¬s.lower ≤ n by omega]
  · by_cases h2 : n > s.upper
    · rw [if_pos (by simp [h2])]
      simp [show ¬n ≤ s.upper by omega]
    · rw [if_neg (by simp [h1, h2])]
      simp only [shiftRight6, and63, Nat.one_shiftLeft]
      rw [and_two_pow_pos]
      simp [show s.lower ≤ n by omega, show n ≤ s.upper by omega]

theorem and_two_pow_eq_zero (x b : Nat) : (x &&& 2 ^ b == 0) = !x.testBit b := by
  by_cases h0 : x &&& 2 ^ b = 0
  · rw [← and_two_pow_pos]
    simp [h0]
  · rw [← and_two_pow_pos]
    simp [h0, Nat.pos_of_ne_zero h0]

theorem popcount64_or_two_pow {x b : Nat} (hb : b < 64)
    (hx : x.testBit b = false) :
    popcount64 (x ||| 2 ^ b) = popcount64 x + 1 := by
  unfold popcount64
  refine countP_flip_true 64 hb ?_ hx ?_
  · intro i _ hib
    simp [Nat.testBit_or, Nat.testBit_two_pow, Ne.symm hib]
  · simp [Nat.testBit_or, hx, Nat.testBit_two_pow]

theorem testBit_not64_two_pow {b i : Nat} (hi : i < 64) :
    (not64 (2 ^ b)).testBit i = !((2 : Nat) ^ b).testBit i := by
  unfold not64
  rw [Nat.testBit_xor, Nat.testBit_two_pow_sub_one]
  simp [hi, Bool.xor_comm]

theorem popcount64_and_not64_two_pow {x b : Nat} (hb : b < 64)
    (hx : x.testBit b = true) :
    popcount64 x = popcount64 (x &&& not64 (2 ^ b)) + 1 := by
  unfold popcount64
  refine countP_flip_true 64 hb ?_ ?_ hx
  · intro i hi hib
    simp [Nat.testBit_and, testBit_not64_two_pow hi, Nat.testBit_two_pow,
      Ne.symm hib]
  · simp [Nat.testBit_and, testBit_not64_two_pow hb, Nat.testBit_two_pow]

theorem getD_mem {l : List Nat} {i : Nat} (h : i < l.length) :
    l.getD i 0 ∈ l := by
  rw [List.getD_eq_getElem?_getD, List.getElem?_eq_getElem h]
  exact List.getElem_mem h

theorem goodSet_new {lower upper : Nat} {s : USizeSet}
    (h : USizeSet.new lower upper = Except.ok s) : GoodSet s := by
  unfold USizeSet.new at h
  split at h
  · exact absurd h (by simp)
  · next hgt =>
    have hle : lower ≤ upper := by omega
    have hs := (Except.ok.injEq _ _).mp h
    subst hs
    refine ⟨hle, by simp [requiredWords], ?_, ?_, ?_⟩
    · intro w hw
      rw [List.eq_of_mem_replicate hw]
      norm_num
    · intro b hb hge
      have hpos : 0 < (upper - lower + 64) >>> 6 := by rw [shiftRight6]; omega
      simp only [List.getD_eq_getElem?_getD, List.length_replicate,
        List.getElem?_replicate]
      rw [if_pos (by omega)]
      simp
    · simp [USizeSet.count, List.map_replicate, popcount64_zero, sum_replicate_nat]

theorem goodSet_range {lower upper : Nat} {s : USizeSet}
    (h : USizeSet.range lower upper = Except.ok s) : GoodSet s := by
  unfold USizeSet.range at h
  split at h
  · exact absurd h (by simp)
  · next hgt =>
    have hle : lower ≤ upper := by omega
    have hs := (Except.ok.injEq _ _).mp h
    subst hs
    set T := upper - lower + 1 with hT
    have hT1 : 1 ≤ T := by omega
    set q := T / 64 with hq
    have hr : T - (q <<< 6) = T % 64 := by rw [shiftLeft6, hq]; omega
    rw [hr]
    set r := T % 64 with hrdef
    have hr64 : r < 64 := Nat.mod_lt _ (by norm_num)
    have hqr : 64 * q + r = T := by rw [hq, hrdef]; omega
    have hlen : (List.replicate q (2 ^ 64 - 1)
        ++ if r > 0 then [(1 <<< r) - 1] else []).length = requiredWords lower upper := by
      rw [List.length_append, List.length_replicate, requiredWords, shiftRight6]
      by_cases hr0 : r > 0 <;> simp [hr0] <;> omega
    refine ⟨hle, hlen, ?_, ?_, ?_⟩
    · intro w hw
      rcases List.mem_append.mp hw with hw | hw
      · rw [List.eq_of_mem_replicate hw]; norm_num
      · by_cases hr0 : r > 0
        · rw [if_pos hr0] at hw
          simp only [List.mem_singleton] at hw
          subst hw
          rw [Nat.one_shiftLeft]
          have : (2 : Nat) ^ r ≤ 2 ^ 64 := Nat.pow_le_pow_right (by norm_num) (by omega)
          omega
        · rw [if_neg hr0] at hw; simp at hw
    · intro b hb hge
      dsimp only at hge ⊢
      rw [hlen, requiredWords_eq] at hge ⊢
      by_cases hr0 : r > 0
      · have hW : (upper - lower + 64) / 64 = q + 1 := by omega
        rw [hW] at hge ⊢
        have hlast : (List.replicate q (2 ^ 64 - 1)
            ++ if r > 0 then [(1 <<< r) - 1] else []).getD (q + 1 - 1) 0
              = 2 ^ r - 1 := by
          rw [if_pos hr0]
          simp only [List.getD_eq_getElem?_getD, Nat.add_sub_cancel]
          rw [List.getElem?_append_right (by simp)]
          simp [Nat.one_shiftLeft]
        rw [hlast, Nat.testBit_two_pow_sub_one]
        simp only [decide_eq_false_iff_not]
        omega
      · -- range size a multiple of 64: the last word is all-ones, but
        -- then there are no out-of-range bit positions below 64.
        exfalso
        have hq1 : 1 ≤ q := by omega
        have hW : (upper - lower + 64) / 64 = q := by omega
        rw [hW] at hge
        omega
    · unfold USizeSet.count
      simp only [List.map_append, List.map_replicate, List.sum_append]
      rw [popcount64_max, sum_replicate_nat]
      by_cases hr0 : r > 0
      · rw [if_pos hr0]
        simp only [List.map_cons, List.map_nil, List.sum_cons, List.sum_nil]
        rw [Nat.one_shiftLeft, popcount64_two_pow_sub_one (by omega)]
        omega
      · rw [if_neg hr0]
        simp only [List.map_nil, List.sum_nil]
        omega

theorem compute_index_ok {s : USizeSet} {n w m : Nat}
    (h : s.compute_index n = Except.ok (w, m)) :
    s.lower ≤ n ∧ n ≤ s.upper
      ∧ w = (n - s.lower) / 64 ∧ m = 2 ^ ((n - s.lower) % 64) := by
  unfold USizeSet.compute_index at h
  split at h
  · exact absurd h (by simp)
  · next hc =>
    simp only [Bool.or_eq_true, decide_eq_true_eq, not_or, not_lt, not_le] at hc
    have hp := (Except.ok.injEq _ _).mp h
    obtain ⟨hw, hm⟩ := Prod.mk.injEq _ _ _ _ |>.mp hp
    exact ⟨by omega, by omega, by rw [← hw, shiftRight6],
      by rw [← hm, and63, Nat.one_shiftLeft]⟩

theorem goodSet_insert {s s' : USizeSet} {n : Nat} {bo : Bool}
    (hg : GoodSet s) (h : s.insert n = Except.ok (bo, s')) : GoodSet s' := by
  obtain ⟨hle, hlen, hwords, hhigh, hcount⟩ := hg
  unfold USizeSet.insert at h
  split at h
  · exact absurd h (by simp)
  · next w m hci =>
    obtain ⟨h1, h2, hw, hm⟩ := compute_index_ok hci
    subst hw; subst hm
    have hwlt : (n - s.lower) / 64 < s.content.length := by
      rw [hlen, requiredWords_eq]; omega
    have hb64 : (n - s.lower) % 64 < 64 := Nat.mod_lt _ (by norm_num)
    split at h
    · next hz =>
      have htb : (s.content.getD ((n - s.lower) / 64) 0).testBit
          ((n - s.lower) % 64) = false := by
        have ha := and_two_pow_eq_zero (s.content.getD ((n - s.lower) / 64) 0)
          ((n - s.lower) % 64)
        rw [hz] at ha
        simp at ha
        simp [ha]
      obtain ⟨hb', hs'⟩ := Prod.mk.injEq _ _ _ _ |>.mp ((Except.ok.injEq _ _).mp h)
      subst hs'
      refine ⟨hle, by simpa using hlen, ?_, ?_, ?_⟩
      · intro x hx
        rcases List.mem_or_eq_of_mem_set hx with hx | hx
        · exact hwords x hx
        · subst hx
          exact Nat.or_lt_two_pow (hwords _ (getD_mem hwlt))
            (Nat.pow_lt_pow_right (by norm_num) hb64)
      · intro i hi hgei
        simp only [List.length_set] at hgei ⊢
        by_cases hwl : (n - s.lower) / 64 = s.content.length - 1
        · have hset : (s.content.set ((n - s.lower) / 64)
              (s.content.getD ((n - s.lower) / 64) 0 ||| 2 ^ ((n - s.lower) % 64))).getD
                (s.content.length - 1) 0
              = s.content.getD ((n - s.lower) / 64) 0 ||| 2 ^ ((n - s.lower) % 64) := by
            rw [← hwl]
            simp [List.getD_eq_getElem?_getD, List.getElem?_set_self hwlt]
          rw [hset, Nat.testBit_or, hwl, hhigh i hi hgei, Nat.testBit_two_pow]
          have hvi : n - s.lower = 64 * (s.content.length - 1) + (n - s.lower) % 64 := by
            conv_lhs => rw [← Nat.div_add_mod (n - s.lower) 64]
            rw [hwl]
          have : (n - s.lower) % 64 ≠ i := by omega
          simp [this]
        · have hset : (s.content.set ((n - s.lower) / 64)
              (s.content.getD ((n - s.lower) / 64) 0 ||| 2 ^ ((n - s.lower) % 64))).getD
                (s.content.length - 1) 0 = s.content.getD (s.content.length - 1) 0 := by
            simp [List.getD_eq_getElem?_getD, List.getElem?_set_ne hwl]
          rw [hset]
          exact hhigh i hi hgei
      · show s.len + 1 = _
        unfold USizeSet.count
        rw [sum_map_set_add_one popcount64 hwlt
          (popcount64_or_two_pow hb64 htb), hcount]
        rfl
    · next hz =>
      obtain ⟨hb', hs'⟩ := Prod.mk.injEq _ _ _ _ |>.mp ((Except.ok.injEq _ _).mp h)
      subst hs'
      exact ⟨hle, hlen, hwords, hhigh, hcount⟩

theorem goodSet_remove {s s' : USizeSet} {n : Nat} {bo : Bool}
    (hg : GoodSet s) (h : s.remove n = Except.ok (bo, s')) : GoodSet s' := by
  obtain ⟨hle, hlen, hwords, hhigh, hcount⟩ := hg
  unfold USizeSet.remove at h
  split at h
  · exact absurd h (by simp)
  · next w m hci =>
    obtain ⟨h1, h2, hw, hm⟩ := compute_index_ok hci
    subst hw; subst hm
    have hwlt : (n - s.lower) / 64 < s.content.length := by
      rw [hlen, requiredWords_eq]; omega
    have hb64 : (n - s.lower) % 64 < 64 := Nat.mod_lt _ (by norm_num)
    split at h
    · next hz =>
      have htb : (s.content.getD ((n - s.lower) / 64) 0).testBit
          ((n - s.lower) % 64) = true := by
        rw [← and_two_pow_pos]
        simpa using hz
      obtain ⟨hb', hs'⟩ := Prod.mk.injEq _ _ _ _ |>.mp ((Except.ok.injEq _ _).mp h)
      subst hs'
      refine ⟨hle, by simpa using hlen, ?_, ?_, ?_⟩
      · intro x hx
        rcases List.mem_or_eq_of_mem_set hx with hx | hx
        · exact hwords x hx
        · subst hx
          have := hwords _ (getD_mem hwlt)
          have hand := Nat.and_le_left (n := s.content.getD ((n - s.lower) / 64) 0)
            (m := not64 (2 ^ ((n - s.lower) % 64)))
          omega
      · intro i hi hgei
        simp only [List.length_set] at hgei ⊢
        by_cases hwl : (n - s.lower) / 64 = s.content.length - 1
        · have hset : (s.content.set ((n - s.lower) / 64)
              (s.content.getD ((n - s.lower) / 64) 0 &&& not64 (2 ^ ((n - s.lower) % 64)))).getD
                (s.content.length - 1) 0
              = s.content.getD ((n - s.lower) / 64) 0 &&& not64 (2 ^ ((n - s.lower) % 64)) := by
            rw [← hwl]
            simp [List.getD_eq_getElem?_getD, List.getElem?_set_self hwlt]
          rw [hset, Nat.testBit_and, hwl, hhigh i hi hgei]
          simp
        · have hset : (s.content.set ((n - s.lower) / 64)
              (s.content.getD ((n - s.lower) / 64) 0 &&& not64 (2 ^ ((n - s.lower) % 64)))).getD
                (s.content.length - 1) 0 = s.content.getD (s.content.length - 1) 0 := by
            simp [List.getD_eq_getElem?_getD, List.getElem?_set_ne hwl]
          rw [hset]
          exact hhigh i hi hgei
      · show s.len - 1 = _
        unfold USizeSet.count
        dsimp only
        have hsub := sum_map_set_sub_one popcount64 hwlt
          (popcount64_and_not64_two_pow hb64 htb)
        unfold USizeSet.count at hcount
        omega
    · next hz =>
      obtain ⟨hb', hs'⟩ := Prod.mk.injEq _ _ _ _ |>.mp ((Except.ok.injEq _ _).mp h)
      subst hs'
      exact ⟨hle, hlen, hwords, hhigh, hcount⟩

theorem goodSet_clear {s : USizeSet} (hg : GoodSet s) : GoodSet s.clear := by
  obtain ⟨hle, hlen, hwords, hhigh, hcount⟩ := hg
  unfold USizeSet.clear
  refine ⟨hle, by simpa using hlen, ?_, ?_, ?_⟩
  · intro x hx
    rw [List.mem_map] at hx
    obtain ⟨_, _, hx⟩ := hx
    subst hx
    norm_num
  · intro i hi hgei
    simp only [List.length_map] at hgei ⊢
    by_cases hlpos : s.content.length = 0
    · simp [List.getD_eq_getElem?_getD, List.length_map,
        List.getElem?_eq_none (by simp [hlpos] : s.content.length ≤ s.content.length - 1)]
    · rw [List.getD_eq_getElem?_getD, List.getElem?_map,
        List.getElem?_eq_getElem (by simp; omega)]
      simp
  · show 0 = _
    unfold USizeSet.count
    rw [List.map_map]
    have : (popcount64 ∘ fun _ => 0) = (fun (_ : Nat) => 0) := by
      funext x
      simp [popcount64_zero]
    rw [this]
    induction s.content with
    | nil => simp
    | cons a l ih => simpa using ih

theorem goodSet_singleton {lower upper c : Nat} {s : USizeSet}
    (h : USizeSet.singleton lower upper c = Except.ok s) : GoodSet s := by
  unfold USizeSet.singleton at h
  split at h
  · exact absurd h (by simp)
  · next r hr =>
    split at h
    · exact absurd h (by simp)
    · next b r2 hins =>
      have := (Except.ok.injEq _ _).mp h
      subst this
      exact goodSet_insert (goodSet_new hr) hins

theorem requiredWords_pos (lower upper : Nat) : 0 < requiredWords lower upper := by
  rw [requiredWords_eq]
  omega

theorem goodSet_op_assign {s t s' : USizeSet} {bo : Bool} {op : Nat → Nat → Nat}
    (hop_lt : ∀ x y, x < 2 ^ 64 → y < 2 ^ 64 → op x y < 2 ^ 64)
    (hop_zero : ∀ x y i, x.testBit i = false → y.testBit i = false →
      (op x y).testBit i = false)
    (hg : GoodSet s) (ht : GoodSet t)
    (h : s.op_assign t op = Except.ok (bo, s')) : GoodSet s' := by
  obtain ⟨hle, hlen, hwords, hhigh, hcount⟩ := hg
  obtain ⟨tle, tlen, twords, thigh, tcount⟩ := ht
  unfold USizeSet.op_assign at h
  split at h
  · exact absurd h (by simp)
  · next hc =>
    have hcl : s.lower = t.lower ∧ s.upper = t.upper := by
      by_cases h1 : s.lower = t.lower <;> by_cases h2 : s.upper = t.upper <;>
        simp [h1, h2] at hc ⊢
    obtain ⟨hcl, hcu⟩ := hcl
    obtain ⟨hb', hs'⟩ := Prod.mk.injEq _ _ _ _ |>.mp ((Except.ok.injEq _ _).mp h)
    subst hs'
    have hLeq : t.content.length = s.content.length := by
      rw [hlen, tlen, hcl, hcu]
    have hdrop : s.content.drop t.content.length = [] := by
      rw [hLeq]; exact List.drop_length _
    have hzlen : (List.zipWith op s.content t.content
        ++ s.content.drop t.content.length).length = s.content.length := by
      rw [hdrop, List.append_nil, List.length_zipWith, hLeq, Nat.min_self]
    refine ⟨hle, by rw [hzlen, hlen], ?_, ?_, ?_⟩
    · intro x hx
      dsimp only at hx
      rw [hdrop, List.append_nil] at hx
      obtain ⟨i, hi⟩ := List.mem_iff_getElem?.mp hx
      rw [List.getElem?_zipWith] at hi
      cases hsi : s.content[i]? with
      | none => rw [hsi] at hi; simp at hi
      | some a =>
        cases hti : t.content[i]? with
        | none => rw [hsi, hti] at hi; simp at hi
        | some b =>
          rw [hsi, hti] at hi
          simp only [Option.some.injEq] at hi
          subst hi
          exact hop_lt a b (hwords a (List.getElem?_mem hsi))
            (twords b (List.getElem?_mem hti))
    · intro i hi hgei
      dsimp only at hgei ⊢
      rw [hzlen] at hgei ⊢
      have hlpos : 0 < s.content.length := by rw [hlen]; exact requiredWords_pos _ _
      have hslt : s.content.length - 1 < s.content.length := by omega
      have htlt : s.content.length - 1 < t.content.length := by omega
      have hgetz : (List.zipWith op s.content t.content
          ++ s.content.drop t.content.length).getD (s.content.length - 1) 0
          = op (s.content.getD (s.content.length - 1) 0)
              (t.content.getD (s.content.length - 1) 0) := by
        rw [hdrop, List.append_nil, List.getD_eq_getElem?_getD,
          List.getElem?_zipWith, List.getElem?_eq_getElem hslt,
          List.getElem?_eq_getElem htlt]
        simp [List.getD_eq_getElem?_getD, List.getElem?_eq_getElem hslt,
          List.getElem?_eq_getElem htlt]
      rw [hgetz]
      refine hop_zero _ _ i (hhigh i hi hgei) ?_
      have := thigh i hi (by rw [hLeq, ← hcl, ← hcu]; exact hgei)
      rw [hLeq] at this
      exact this
    · show _ = _
      unfold USizeSet.count
      rfl

theorem flipWords_length (l : List Nat) : (flipWords l).length = l.length := by
  induction l with
  | nil => rfl
  | cons a l ih =>
    cases l with
    | nil => rfl
    | cons b r => simp only [flipWords, List.length_cons] at ih ⊢; omega

theorem flipWords_getElem?_lt {l : List Nat} {i : Nat} (h : i + 1 < l.length) :
    (flipWords l)[i]? = (l[i]?).map not64 := by
  induction l generalizing i with
  | nil => simp at h
  | cons a l ih =>
    cases l with
    | nil => simp at h
    | cons b r =>
      cases i with
      | zero => simp [flipWords]
      | succ i =>
        simp only [flipWords, List.getElem?_cons_succ]
        exact ih (by simpa using h)

theorem flipWords_getElem?_last {l : List Nat} {i : Nat} (h : ¬(i + 1 < l.length)) :
    (flipWords l)[i]? = l[i]? := by
  induction l generalizing i with
  | nil => simp [flipWords]
  | cons a l ih =>
    cases l with
    | nil =>
      cases i with
      | zero => simp [flipWords]
      | succ i => simp [flipWords]
    | cons b r =>
      cases i with
      | zero => simp at h
      | succ i =>
        simp only [flipWords, List.getElem?_cons_succ]
        exact ih (by simp at h ⊢; omega)

theorem flipWords_words_lt {l : List Nat} (hl : ∀ w ∈ l, w < 2 ^ 64) :
    ∀ w ∈ flipWords l, w < 2 ^ 64 := by
  induction l with
  | nil => simp [flipWords]
  | cons a l ih =>
    cases l with
    | nil => simpa [flipWords] using hl
    | cons b r =>
      intro w hw
      simp only [flipWords, List.mem_cons] at hw
      rcases hw with hw | hw
      · subst hw
        exact Nat.xor_lt_two_pow (hl a (by simp)) (by norm_num)
      · exact ih (fun x hx => hl x (List.mem_cons_of_mem _ hx)) w hw

theorem getDElem_mem {l : List Nat} {i : Nat} (h : i < l.length) :
    l[i]?.getD 0 ∈ l := by
  rw [List.getElem?_eq_getElem h]
  exact List.getElem_mem h

theorem goodSet_complement_assign {s : USizeSet} (hg : GoodSet s) :
    GoodSet s.complement_assign := by
  obtain ⟨hle, hlen, hwords, hhigh, hcount⟩ := hg
  simp only [List.getD_eq_getElem?_getD] at hhigh
  unfold USizeSet.complement_assign
  dsimp only
  have hlpos : 0 < s.content.length := by rw [hlen]; exact requiredWords_pos _ _
  have hmask_lt : (2 ^ 64 - 1) >>> (64 - (s.upper - s.lower + 1) % 64) < 2 ^ 64 := by
    rw [Nat.shiftRight_eq_div_pow]
    have h2 : (2 : Nat) ^ 64 - 1 < 2 ^ 64 := by norm_num
    exact Nat.lt_of_le_of_lt (Nat.div_le_self _ _) h2
  have hflt : ∀ w ∈ flipWords s.content, w < 2 ^ 64 := flipWords_words_lt hwords
  have hfl : (flipWords s.content).length = s.content.length := flipWords_length _
  have hflast : (flipWords s.content)[s.content.length - 1]?
      = s.content[s.content.length - 1]? :=
    flipWords_getElem?_last (by omega)
  by_cases hrem : (s.upper - s.lower + 1) % 64 > 0
  · rw [if_pos hrem]
    have hsetlen : ((flipWords s.content).set (s.content.length - 1)
        ((flipWords s.content).getD (s.content.length - 1) 0 ^^^
          (2 ^ 64 - 1) >>> (64 - (s.upper - s.lower + 1) % 64))).length
        = s.content.length := by
      rw [List.length_set, hfl]
    refine ⟨hle, by rw [hsetlen]; exact hlen, ?_, ?_, by unfold USizeSet.count; rfl⟩
    · intro x hx
      dsimp only at hx
      rcases List.mem_or_eq_of_mem_set hx with hx | hx
      · exact hflt x hx
      · subst hx
        refine Nat.xor_lt_two_pow ?_ hmask_lt
        simp only [List.getD_eq_getElem?_getD, hflast]
        exact hwords _ (getDElem_mem (by omega))
    · intro i hi hgei
      dsimp only at hgei ⊢
      rw [hsetlen] at hgei ⊢
      simp only [List.getD_eq_getElem?_getD]
      rw [List.getElem?_set_self (by rw [hfl]; omega)]
      simp only [Option.getD_some, hflast]
      rw [Nat.testBit_xor]
      rw [hhigh i hi hgei]
      rw [testBit_mask64 hrem (Nat.le_of_lt (Nat.mod_lt _ (by norm_num)))]
      have hLval : s.content.length = (s.upper - s.lower + 64) / 64 := by
        rw [hlen, requiredWords_eq]
      have hni : ¬(i < (s.upper - s.lower + 1) % 64) := by omega
      simp [hni]
  · rw [if_neg hrem]
    refine ⟨hle, by rw [hfl]; exact hlen, hflt, ?_, by unfold USizeSet.count; rfl⟩
    intro i hi hgei
    dsimp only at hgei ⊢
    rw [hfl] at hgei ⊢
    simp only [List.getD_eq_getElem?_getD, hflast]
    exact hhigh i hi hgei

theorem reachable_goodSet {s : USizeSet} (h : Reachable s) : GoodSet s := by
  induction h with
  | ofNew h => exact goodSet_new h
  | ofRange h => exact goodSet_range h
  | ofSingleton h => exact goodSet_singleton h
  | ofInsert _ hins ih => exact goodSet_insert ih hins
  | ofRemove _ hrm ih => exact goodSet_remove ih hrm
  | ofClear _ ih => exact goodSet_clear ih
  | ofUnion _ _ hop ihs iht =>
    exact goodSet_op_assign (fun x y hx hy => Nat.or_lt_two_pow hx hy)
      (fun x y i hx hy => by simp [Nat.testBit_or, hx, hy]) ihs iht hop
  | ofIntersect _ _ hop ihs iht =>
    exact goodSet_op_assign (fun x y hx hy => Nat.lt_of_le_of_lt Nat.and_le_left hx)
      (fun x y i hx hy => by simp [Nat.testBit_and, hx]) ihs iht hop
  | ofDifference _ _ hop ihs iht =>
    exact goodSet_op_assign
      (fun x y hx hy => Nat.lt_of_le_of_lt Nat.and_le_left hx)
      (fun x y i hx hy => by simp [Nat.testBit_and, hx]) ihs iht hop
  | ofSymmetricDifference _ _ hop ihs iht =>
    exact goodSet_op_assign (fun x y hx hy => Nat.xor_lt_two_pow hx hy)
      (fun x y i hx hy => by simp [Nat.testBit_xor, hx, hy]) ihs iht hop
  | ofComplement _ ih => exact goodSet_complement_assign ih

/-- C9: for every USizeSet reachable from the constructors by any
sequence of the mutating operations, the cached `len` equals the true
population count of the backing words, and an in-range value `n` is a
member exactly when bit `(n - lower) % 64` of word `(n - lower) / 64`
is set (out-of-range values are never members). -/
theorem C9_len_and_membership_invariant {s : USizeSet} (h : Reachable s) :
    s.len = s.count
    ∧ ∀ n : Nat, s.contains n = true ↔
        (s.lower ≤ n ∧ n ≤ s.upper ∧
          (s.content.getD ((n - s.lower) / 64) 0).testBit ((n - s.lower) % 64) = true) := by
  have hg := reachable_goodSet h
  refine ⟨hg.2.2.2.2, ?_⟩
  intro n
  rw [contains_iff_testBit]
  simp [and_assoc]

/-- Witness for C9: the singleton set {3} over [1, 9] evaluates to the
concrete record below, is reachable, and satisfies the invariant. -/
theorem C9_len_and_membership_invariant_witness :
    USizeSet.singleton 1 9 3 = Except.ok
      { lower := 1, upper := 9, len := 1, content := [4] }
    ∧ ({ lower := 1, upper := 9, len := 1, content := [4] } : USizeSet).len
      = ({ lower := 1, upper := 9, len := 1, content := [4] } : USizeSet).count
    ∧ (({ lower := 1, upper := 9, len := 1, content := [4] } : USizeSet).contains 3
        = true ↔
        (1 ≤ 3 ∧ 3 ≤ 9 ∧
          (([4] : List Nat).getD ((3 - 1) / 64) 0).testBit ((3 - 1) % 64) = true)) := by
  have hreach : Reachable { lower := 1, upper := 9, len := 1, content := [4] } :=
    Reachable.ofSingleton (by decide :
      USizeSet.singleton 1 9 3 = Except.ok { lower := 1, upper := 9, len := 1, content := [4] })
  have hth := C9_len_and_membership_invariant hreach
  exact ⟨by decide, hth.1, hth.2 3⟩

theorem not64_not64 (x : Nat) : not64 (not64 x) = x := by
  unfold not64
  rw [Nat.xor_assoc, Nat.xor_self, Nat.xor_zero]

theorem testBit_not64 {x b : Nat} (hb : b < 64) :
    (not64 x).testBit b = !x.testBit b := by
  unfold not64
  rw [Nat.testBit_xor, Nat.testBit_two_pow_sub_one]
  simp [hb]

theorem flipWords_flipWords (l : List Nat) : flipWords (flipWords l) = l := by
  apply List.ext_getElem?
  intro i
  by_cases h : i + 1 < l.length
  · rw [flipWords_getElem?_lt (by rw [flipWords_length]; exact h),
      flipWords_getElem?_lt h]
    cases hx : l[i]? with
    | none => rfl
    | some a => simp [not64_not64]
  · rw [flipWords_getElem?_last (by rw [flipWords_length]; exact h),
      flipWords_getElem?_last h]

theorem contains_new {lower upper : Nat} {s : USizeSet}
    (h : USizeSet.new lower upper = Except.ok s) :
    ∀ n, s.contains n = false := by
  unfold USizeSet.new at h
  split at h
  · exact absurd h (by simp)
  · have hs := (Except.ok.injEq _ _).mp h
    subst hs
    intro n
    rw [contains_iff_testBit]
    dsimp only
    simp only [List.getD_eq_getElem?_getD, List.getElem?_replicate]
    by_cases hw : (n - lower) / 64 < (upper - lower + 64) >>> 6 <;> simp [hw]

theorem contains_range {lower upper : Nat} {s : USizeSet}
    (h : USizeSet.range lower upper = Except.ok s) :
    ∀ n, s.contains n = (decide (lower ≤ n) && decide (n ≤ upper)) := by
  unfold USizeSet.range at h
  split at h
  · exact absurd h (by simp)
  · next hgt =>
    have hs := (Except.ok.injEq _ _).mp h
    subst hs
    intro n
    rw [contains_iff_testBit]
    dsimp only
    by_cases h1 : lower ≤ n
    · by_cases h2 : n ≤ upper
      · simp only [h1, h2, decide_True, Bool.true_and]
        have hq : (upper - lower + 1) - (((upper - lower + 1) / 64) <<< 6)
            = (upper - lower + 1) % 64 := by
          rw [shiftLeft6]; omega
        rw [hq]
        set T := upper - lower + 1 with hT
        set q := T / 64 with hqd
        set r := T % 64 with hrd
        have hidx : n - lower ≤ T - 1 := by omega
        have hqr : 64 * q + r = T := by rw [hqd, hrd]; omega
        by_cases hwq : (n - lower) / 64 < q
        · have hbit : Nat.testBit (2 ^ 64 - 1) ((n - lower) % 64) = true := by
            rw [Nat.testBit_two_pow_sub_one]
            simp [Nat.mod_lt _ (show 0 < 64 by norm_num)]
          simp only [List.getD_eq_getElem?_getD]
          rw [List.getElem?_append_left (by simpa using hwq)]
          rw [List.getElem?_replicate, if_pos hwq]
          simp only [Option.getD_some]
          exact hbit
        · have hr0 : r > 0 := by omega
          have hwq2 : (n - lower) / 64 = q := by omega
          simp only [List.getD_eq_getElem?_getD]
          rw [List.getElem?_append_right (by simp [hwq2])]
          rw [if_pos hr0]
          simp only [List.length_replicate, hwq2, Nat.sub_self,
            List.getElem?_cons_zero, Option.getD_some]
          rw [Nat.one_shiftLeft, Nat.testBit_two_pow_sub_one]
          have hblt : (n - lower) % 64 < r := by omega
          simp [hblt]
      · simp [h2]
    · simp [h1]

theorem complement_contains_flip {s : USizeSet} (hg : GoodSet s)
    (hrem : (s.upper - s.lower + 1) % 64 ≠ 0) {n : Nat}
    (h1 : s.lower ≤ n) (h2 : n ≤ s.upper) :
    s.complement.contains n = !(s.contains n) := by
  obtain ⟨hle, hlen, hwords, hhigh, hcount⟩ := hg
  have hL0 : 0 < s.content.length := by rw [hlen]; exact requiredWords_pos _ _
  have hwlt : (n - s.lower) / 64 < s.content.length := by
    rw [hlen, requiredWords_eq]; omega
  have hb64 : (n - s.lower) % 64 < 64 := Nat.mod_lt _ (by norm_num)
  unfold USizeSet.complement USizeSet.complement_assign
  dsimp only
  rw [if_pos (by omega)]
  rw [contains_iff_testBit, contains_iff_testBit]
  dsimp only
  simp only [h1, h2, decide_True, Bool.true_and]
  by_cases hwl : (n - s.lower) / 64 = s.content.length - 1
  · simp only [List.getD_eq_getElem?_getD, hwl]
    rw [List.getElem?_set_self (by rw [flipWords_length]; omega), Option.getD_some]
    rw [flipWords_getElem?_last (by omega)]
    rw [Nat.testBit_xor,
      testBit_mask64 (by omega) (Nat.le_of_lt (Nat.mod_lt _ (by norm_num)))]
    have hLval : s.content.length = (s.upper - s.lower + 64) / 64 := by
      rw [hlen, requiredWords_eq]
    have hblt : (n - s.lower) % 64 < (s.upper - s.lower + 1) % 64 := by omega
    simp [hblt]
  · simp only [List.getD_eq_getElem?_getD]
    rw [List.getElem?_set_ne (fun he => hwl he.symm)]
    rw [flipWords_getElem?_lt (by omega)]
    rw [List.getElem?_eq_getElem hwlt]
    simp [testBit_not64 hb64]

theorem complement_assign_fields (s : USizeSet) :
    s.complement_assign.lower = s.lower
    ∧ s.complement_assign.upper = s.upper
    ∧ s.complement_assign.content =
      (if (s.upper - s.lower + 1) % 64 > 0 then
        (flipWords s.content).set (s.content.length - 1)
          ((flipWords s.content).getD (s.content.length - 1) 0 ^^^
            (2 ^ 64 - 1) >>> (64 - (s.upper - s.lower + 1) % 64))
      else flipWords s.content)
    ∧ s.complement_assign.len =
      (List.map popcount64 s.complement_assign.content).sum := by
  exact ⟨rfl, rfl, rfl, rfl⟩

theorem complement_content_involution {s : USizeSet}
    (hL0 : 0 < s.content.length) :
    s.complement_assign.complement_assign.content = s.content := by
  obtain ⟨hl1, hu1, hc1, _⟩ := complement_assign_fields s
  obtain ⟨hl2, hu2, hc2, _⟩ := complement_assign_fields s.complement_assign
  rw [hc2, hl1, hu1, hc1]
  by_cases hrem : (s.upper - s.lower + 1) % 64 > 0
  · rw [if_pos hrem, if_pos hrem]
    have hlen1 : ((flipWords s.content).set (s.content.length - 1)
        ((flipWords s.content).getD (s.content.length - 1) 0 ^^^
          (2 ^ 64 - 1) >>> (64 - (s.upper - s.lower + 1) % 64))).length
        = s.content.length := by
      rw [List.length_set, flipWords_length]
    rw [hlen1]
    apply List.ext_getElem?
    intro i
    by_cases hiL : i < s.content.length
    · by_cases hil : i = s.content.length - 1
      · subst hil
        rw [List.getElem?_set_self (by
            rw [flipWords_length, List.length_set, flipWords_length]; omega)]
        simp only [List.getD_eq_getElem?_getD]
        rw [flipWords_getElem?_last (by rw [List.length_set, flipWords_length]; omega)]
        rw [List.getElem?_set_self (by rw [flipWords_length]; omega)]
        simp only [Option.getD_some]
        rw [flipWords_getElem?_last (by omega)]
        rw [Nat.xor_assoc, Nat.xor_self, Nat.xor_zero]
        rw [List.getElem?_eq_getElem hiL]
        simp
      · rw [List.getElem?_set_ne (fun he => hil he.symm)]
        rw [flipWords_getElem?_lt (by rw [List.length_set, flipWords_length]; omega)]
        rw [List.getElem?_set_ne (fun he => hil he.symm)]
        rw [flipWords_getElem?_lt (by omega)]
        rw [List.getElem?_eq_getElem hiL]
        simp [not64_not64]
    · refine Eq.trans (List.getElem?_eq_none ?_) (List.getElem?_eq_none (by omega : s.content.length ≤ i)).symm
      simp only [List.length_set, flipWords_length]
      omega
  · rw [if_neg hrem, if_neg hrem]
    exact flipWords_flipWords s.content

theorem USizeSet_eq_of_fields {a b : USizeSet} (h1 : a.lower = b.lower)
    (h2 : a.upper = b.upper) (h3 : a.len = b.len) (h4 : a.content = b.content) :
    a = b := by
  cases a
  cases b
  cases h1
  cases h2
  cases h3
  cases h4
  rfl

theorem complement_complement {s : USizeSet} (hg : GoodSet s) :
    s.complement.complement = s := by
  obtain ⟨hle, hlen, hwords, hhigh, hcount⟩ := hg
  have hL0 : 0 < s.content.length := by rw [hlen]; exact requiredWords_pos _ _
  have hcontent := complement_content_involution hL0
  obtain ⟨hl2, hu2, _, hlen2⟩ := complement_assign_fields s.complement_assign
  obtain ⟨hl1, hu1, _, _⟩ := complement_assign_fields s
  unfold USizeSet.complement
  apply USizeSet_eq_of_fields
  · rw [hl2, hl1]
  · rw [hu2, hu1]
  · rw [hlen2, hcontent]
    unfold USizeSet.count at hcount
    exact hcount.symm
  · exact hcontent

theorem range_bounds {lower upper : Nat} {s : USizeSet}
    (h : USizeSet.range lower upper = Except.ok s) :
    s.lower = lower ∧ s.upper = upper := by
  unfold USizeSet.range at h
  split at h
  · exact absurd h (by simp)
  · have hs := (Except.ok.injEq _ _).mp h
    subst hs
    exact ⟨rfl, rfl⟩

theorem new_bounds {lower upper : Nat} {s : USizeSet}
    (h : USizeSet.new lower upper = Except.ok s) :
    s.lower = lower ∧ s.upper = upper := by
  unfold USizeSet.new at h
  split at h
  · exact absurd h (by simp)
  · have hs := (Except.ok.injEq _ _).mp h
    subst hs
    exact ⟨rfl, rfl⟩

theorem complement_contains_out_of_range {s : USizeSet} {n : Nat}
    (h : n < s.lower ∨ n > s.upper) : s.complement.contains n = false := by
  obtain ⟨hl, hu, _, _⟩ := complement_assign_fields s
  unfold USizeSet.complement
  rw [contains_iff_testBit, hl, hu]
  rcases h with h | h
  · simp [show ¬s.lower ≤ n by omega]
  · simp [show ¬n ≤ s.upper by omega]

/-- C6 (amended): for well-formed sets whose range size
`upper - lower + 1` is NOT a multiple of 64, `complement` contains
exactly the in-range values not in the set and keeps all out-of-range
high bits zero; complement is involutive for every well-formed set
(whatever the range size); and the complement of a full range set is
empty and that of an empty set is the full range, again provided the
range size is not a multiple of 64.  The amendment relative to the
claim: when `(upper - lower + 1) % 64 == 0` the source's
`complement_assign` loop stops before the final word and the masking
step is skipped, so the final word is not flipped at all. -/
theorem C6_complement_semantics :
    (∀ s : USizeSet, GoodSet s → (s.upper - s.lower + 1) % 64 ≠ 0 →
      (∀ n, s.lower ≤ n → n ≤ s.upper →
        s.complement.contains n = !(s.contains n))
      ∧ GoodSet s.complement)
    ∧ (∀ s : USizeSet, GoodSet s → s.complement.complement = s)
    ∧ (∀ (lower upper : Nat) (s : USizeSet),
        USizeSet.range lower upper = Except.ok s →
        (upper - lower + 1) % 64 ≠ 0 →
        ∀ n, s.complement.contains n = false)
    ∧ (∀ (lower upper : Nat) (s : USizeSet),
        USizeSet.new lower upper = Except.ok s →
        (upper - lower + 1) % 64 ≠ 0 →
        ∀ n, s.complement.contains n
          = (decide (lower ≤ n) && decide (n ≤ upper))) := by
  refine ⟨?_, ?_, ?_, ?_⟩
  · intro s hg hrem
    exact ⟨fun n h1 h2 => complement_contains_flip hg hrem h1 h2,
      goodSet_complement_assign hg⟩
  · intro s hg
    exact complement_complement hg
  · intro lower upper s h hrem n
    obtain ⟨hbl, hbu⟩ := range_bounds h
    by_cases h1 : lower ≤ n
    · by_cases h2 : n ≤ upper
      · rw [complement_contains_flip (goodSet_range h)
          (by rw [hbl, hbu]; exact hrem) (by rw [hbl]; exact h1)
          (by rw [hbu]; exact h2)]
        rw [contains_range h n]
        simp [h1, h2]
      · exact complement_contains_out_of_range (Or.inr (by omega))
    · exact complement_contains_out_of_range (Or.inl (by omega))
  · intro lower upper s h hrem n
    by_cases h1 : lower ≤ n
    · by_cases h2 : n ≤ upper
      · obtain ⟨hbl, hbu⟩ := new_bounds h
        rw [complement_contains_flip (goodSet_new h)
          (by rw [hbl, hbu]; exact hrem) (by rw [hbl]; exact h1)
          (by rw [hbu]; exact h2)]
        rw [contains_new h n]
        simp [h1, h2]
      · obtain ⟨hbl, hbu⟩ := new_bounds h
        rw [complement_contains_out_of_range (Or.inr (by omega))]
        simp [h2]
    · obtain ⟨hbl, hbu⟩ := new_bounds h
      rw [complement_contains_out_of_range (Or.inl (by omega))]
      simp [h1]

/-- C6 counterexample: over the bounds [1, 64] the range size is 64, a
multiple of 64, so `complement_assign` flips nothing: the complement of
the empty set over [1, 64] does not contain the in-range value 1,
although the claim requires every in-range bit to be flipped (and the
complement of an empty set to be the full range). -/
theorem C6_complement_counterexample :
    USizeSet.new 1 64 = Except.ok
      { lower := 1, upper := 64, len := 0, content := [0] }
    ∧ ({ lower := 1, upper := 64, len := 0, content := [0] }
        : USizeSet).complement.contains 1 = false := by
  exact ⟨by decide, by decide⟩

/-- Witness for C6 at the concrete range set over [1, 9]. -/
theorem C6_complement_semantics_witness :
    USizeSet.range 1 9 = Except.ok
      { lower := 1, upper := 9, len := 9, content := [511] }
    ∧ ({ lower := 1, upper := 9, len := 9, content := [511] }
        : USizeSet).complement.contains 5
      = !({ lower := 1, upper := 9, len := 9, content := [511] }
        : USizeSet).contains 5
    ∧ GoodSet ({ lower := 1, upper := 9, len := 9, content := [511] }
        : USizeSet).complement
    ∧ ({ lower := 1, upper := 9, len := 9, content := [511] }
        : USizeSet).complement.complement
      = { lower := 1, upper := 9, len := 9, content := [511] }
    ∧ ({ lower := 1, upper := 9, len := 9, content := [511] }
        : USizeSet).complement.contains 5 = false
    ∧ ∀ s : USizeSet, USizeSet.new 1 9 = Except.ok s →
        s.complement.contains 5 = (decide (1 ≤ 5) && decide (5 ≤ 9)) := by
  obtain ⟨cA, cB, cC, cD⟩ := C6_complement_semantics
  have hgood : GoodSet ({ lower := 1, upper := 9, len := 9, content := [511] }
      : USizeSet) := by decide
  refine ⟨by decide,
    (cA _ hgood (by decide)).1 5 (by decide) (by decide),
    (cA _ hgood (by decide)).2,
    cB _ hgood,
    cC 1 9 _ (by decide) (by decide) 5,
    fun s hs => cD 1 9 s hs (by decide) 5⟩

/-- C8 (amended): `insert` and `remove` fail with OutOfBounds for any
number outside `[lower, upper]`, while `contains` — whose Rust
signature returns a plain `bool` — simply returns `false` there rather
than failing; for in-range numbers on well-formed sets, `insert` and
`remove` succeed and return exactly whether the membership changed
(`insert` returns true iff the element was absent, `remove` returns
true iff it was present). -/
theorem C8_insert_remove_contains_bounds :
    (∀ (s : USizeSet) (n : Nat), n < s.lower ∨ n > s.upper →
      s.insert n = Except.error USizeSetError.OutOfBounds
      ∧ s.remove n = Except.error USizeSetError.OutOfBounds
      ∧ s.contains n = false)
    ∧ (∀ (s : USizeSet) (n : Nat), GoodSet s → s.lower ≤ n → n ≤ s.upper →
      (∃ s', s.insert n = Except.ok (!s.contains n, s'))
      ∧ (∃ s', s.remove n = Except.ok (s.contains n, s'))) := by
  constructor
  · intro s n h
    have hci : s.compute_index n = Except.error USizeSetError.OutOfBounds := by
      unfold USizeSet.compute_index
      rw [if_pos (by rcases h with h | h <;> simp [h])]
    refine ⟨?_, ?_, ?_⟩
    · unfold USizeSet.insert
      rw [hci]
    · unfold USizeSet.remove
      rw [hci]
    · unfold USizeSet.contains
      rw [hci]
  · intro s n hg h1 h2
    have hci : s.compute_index n
        = Except.ok ((n - s.lower) >>> 6, 1 <<< ((n - s.lower) &&& 63)) := by
      unfold USizeSet.compute_index
      rw [if_neg (by simp; omega)]
    have hcontains : s.contains n = decide
        (s.content.getD ((n - s.lower) >>> 6) 0 &&& (1 <<< ((n - s.lower) &&& 63)) > 0) := by
      unfold USizeSet.contains
      rw [hci]
    simp only [List.getD_eq_getElem?_getD] at hcontains
    constructor
    · by_cases hz : s.content[(n - s.lower) >>> 6]?.getD 0
          &&& (1 <<< ((n - s.lower) &&& 63)) = 0
      · apply Exists.intro { s with len := s.len + 1, content := s.content.set ((n - s.lower) >>> 6) (s.content.getD ((n - s.lower) >>> 6) 0 ||| (1 <<< ((n - s.lower) &&& 63))) }
        unfold USizeSet.insert
        rw [hci]
        dsimp only
        rw [if_pos (by simp [hz]), hcontains]
        simp [hz]
      · refine ⟨s, ?_⟩
        unfold USizeSet.insert
        rw [hci]
        dsimp only
        rw [if_neg (by simp [hz]), hcontains]
        simp [Nat.pos_of_ne_zero hz]
    · by_cases hz : s.content[(n - s.lower) >>> 6]?.getD 0
          &&& (1 <<< ((n - s.lower) &&& 63)) = 0
      · refine ⟨s, ?_⟩
        unfold USizeSet.remove
        rw [hci]
        dsimp only
        rw [if_neg (by simp [hz]), hcontains]
        simp [hz]
      · apply Exists.intro { s with len := s.len - 1, content := s.content.set ((n - s.lower) >>> 6) (s.content.getD ((n - s.lower) >>> 6) 0 &&& not64 (1 <<< ((n - s.lower) &&& 63))) }
        unfold USizeSet.remove
        rw [hci]
        dsimp only
        rw [if_pos (by simp [Nat.pos_of_ne_zero hz]), hcontains]
        simp [Nat.pos_of_ne_zero hz]

/-- C8 counterexample: on the empty set over [1, 5] and the
out-of-range query 6, `insert` does fail with OutOfBounds but
`contains` — claimed by C8 to fail with OutOfBounds as well — returns
the plain boolean `false`: its Rust signature has no error channel at
all. -/
theorem C8_contains_no_error_counterexample :
    USizeSet.new 1 5 = Except.ok
      { lower := 1, upper := 5, len := 0, content := [0] }
    ∧ ({ lower := 1, upper := 5, len := 0, content := [0] }
        : USizeSet).contains 6 = false
    ∧ ({ lower := 1, upper := 5, len := 0, content := [0] }
        : USizeSet).insert 6 = Except.error USizeSetError.OutOfBounds := by
  exact ⟨by decide, by decide, by decide⟩

/-- Witness for C8 at concrete sets. -/
theorem C8_insert_remove_contains_bounds_witness :
    (({ lower := 1, upper := 5, len := 0, content := [0] }
        : USizeSet).insert 6 = Except.error USizeSetError.OutOfBounds
      ∧ ({ lower := 1, upper := 5, len := 0, content := [0] }
        : USizeSet).remove 6 = Except.error USizeSetError.OutOfBounds
      ∧ ({ lower := 1, upper := 5, len := 0, content := [0] }
        : USizeSet).contains 6 = false)
    ∧ (∃ s', ({ lower := 1, upper := 9, len := 1, content := [4] }
        : USizeSet).insert 3
        = Except.ok (!({ lower := 1, upper := 9, len := 1, content := [4] }
            : USizeSet).contains 3, s'))
    ∧ (∃ s', ({ lower := 1, upper := 9, len := 1, content := [4] }
        : USizeSet).remove 3
        = Except.ok (({ lower := 1, upper := 9, len := 1, content := [4] }
            : USizeSet).contains 3, s')) := by
  obtain ⟨c1, c2⟩ := C8_insert_remove_contains_bounds
  have h2 := c2 { lower := 1, upper := 9, len := 1, content := [4] } 3
    (by decide) (by decide) (by decide)
  exact ⟨c1 _ 6 (by decide), h2.1, h2.2⟩

/-! Solver (solver/mod.rs) and the constraint contract (constraint/mod.rs).
The concrete rule implementations (DefaultConstraint and friends) are
declared but not present under src/, so the rule itself is modelled
from the spec; see `check_number` below. -/

/-- Solution from solver/mod.rs. -/
inductive Solution where
  | Impossible
  | Unique (g : SudokuGrid)
  | Ambiguous
deriving DecidableEq, Repr

/-- Embedding of `Solution::union` (solver/mod.rs lines 16-32). -/
def Solution.union : Solution → Solution → Solution
  | Solution.Impossible, other => other
  | Solution.Unique g, Solution.Impossible => Solution.Unique g
  | Solution.Unique g, Solution.Unique other_g =>
    if g = other_g then Solution.Unique g else Solution.Ambiguous
  | Solution.Unique _, Solution.Ambiguous => Solution.Ambiguous
  | Solution.Ambiguous, _ => Solution.Ambiguous

/-- Cell of a grid at (column, row) in row-major order, the content of
`cells[row * size + column]`. -/
def cellAt (g : SudokuGrid) (column row : Nat) : Option Nat :=
  g.cells.getD (row * g.size + column) none

section ConstraintModel

variable (allowed : Nat → Nat → Nat → Bool)
variable (conflict : Nat × Nat × Nat → Nat × Nat × Nat → Bool)

/-- Modelled from the spec: the repository's concrete Constraint
implementations (row/column/box and the rule variants) are declared in
constraint/irreducible.rs but their bodies are not under src/.
Following spec section 4.3 — check_number(grid, column, row, number) is
rule-specific: "would placing number at (column,row) violate this rule,
given the rest of the (possibly partial) grid?" — a rule is modelled by
a per-cell predicate `allowed` on placements plus a pairwise conflict
relation between placed digits (symmetric, as hypothesised in the
theorems below): a placement is admissible iff it is allowed and no
OTHER filled cell conflicts with it.  Every elementary rule of spec
section 2 (row, column, box, diagonals, knight/king moves,
adjacent-consecutive) has this pairwise form. -/
def check_number (g : SudokuGrid) (column row number : Nat) : Bool :=
  allowed column row number &&
    ((List.range g.size).all fun r' =>
      (List.range g.size).all fun c' =>
        (c' == column && r' == row) ||
        match cellAt g c' r' with
        | some m => !conflict (column, row, number) (c', r', m)
        | none => true)

/-- Embedding of `default_check_cell` (constraint/mod.rs lines 31-40):
delegate to check_number for a filled cell, trivially true on an empty
cell.  The `get_cell(...).unwrap()` of the source is `cellAt` here (its
callers stay in range). -/
def check_cell (g : SudokuGrid) (column row : Nat) : Bool :=
  match cellAt g column row with
  | some number => check_number allowed conflict g column row number
  | none => true

/-- Embedding of `default_check` (constraint/mod.rs lines 15-29): every
cell must pass check_cell. -/
def check (g : SudokuGrid) : Bool :=
  (List.range g.size).all fun row =>
    (List.range g.size).all fun column =>
      check_cell allowed conflict g column row

/-- Embedding of `Sudoku::is_valid_number` (lib.rs lines 481-493), with
the constraint's check_number given by the model above. -/
def is_valid_number (g : SudokuGrid) (column row number : Nat) :
    SudokuResult Bool :=
  if column ≥ g.size || row ≥ g.size then
    Except.error SudokuError.OutOfBounds
  else if number == 0 || number > g.size then
    Except.error SudokuError.InvalidNumber
  else
    Except.ok (check_number allowed conflict g column row number)

/-- Embedding of `Sudoku::is_valid_solution` (lib.rs lines 495-497). -/
def is_valid_solution (g sol : SudokuGrid) : SudokuResult Bool :=
  match g.is_subset sol with
  | Except.error e => Except.error e
  | Except.ok sub => Except.ok (sub && check allowed conflict sol && sol.is_full)

end ConstraintModel

/-- Rust `unwrap()` on a boolean Result; the panic is modelled as
`false` (never reached: the solver and generator query only in-range
cells and digits). -/
def unwrapB : SudokuResult Bool → Bool
  | Except.ok b => b
  | Except.error _ => false

/-- Rust `set_cell(...).unwrap()` (state-passing); panic modelled as
leaving the grid unchanged (never reached by solver/generator). -/
def setCellD (g : SudokuGrid) (column row number : Nat) : SudokuGrid :=
  match g.set_cell column row number with
  | Except.ok g2 => g2
  | Except.error _ => g

/-- Rust `clear_cell(...).unwrap()` (state-passing); panic modelled as
leaving the grid unchanged. -/
def clearCellD (g : SudokuGrid) (column row : Nat) : SudokuGrid :=
  match g.clear_cell column row with
  | Except.ok g2 => g2
  | Except.error _ => g

/-- Rust `get_cell(...).unwrap()`; panic modelled as an empty cell. -/
def getCellD (g : SudokuGrid) (column row : Nat) : Option Nat :=
  match g.get_cell column row with
  | Except.ok v => v
  | Except.error _ => none

section Solver

variable (allowed : Nat → Nat → Nat → Bool)
variable (conflict : Nat × Nat × Nat → Nat × Nat × Nat → Bool)

/-- Embedding of the digit loop `for number in 1..=size` inside
`BacktrackingSolver::solve_rec` (solver/mod.rs lines 62-75), including
the early `break` as soon as the accumulated solution is Ambiguous; the
recursive descent of `solve_rec` into the next cell is passed in as
`recurse`. -/
def solve_nums (recurse : SudokuGrid → Nat → Nat → Solution × SudokuGrid)
    (g : SudokuGrid) (column row next_column next_row : Nat) (ns : List Nat)
    (solution : Solution) : Solution × SudokuGrid :=
  match ns with
  | [] => (solution, g)
  | number :: rest =>
    if unwrapB (is_valid_number allowed conflict g column row number) then
      let g1 := setCellD g column row number
      let res := recurse g1 next_column next_row
      let g3 := clearCellD res.2 column row
      let solution2 := solution.union res.1
      if solution2 = Solution.Ambiguous then
        (solution2, g3)
      else
        solve_nums recurse g3 column row next_column next_row rest solution2
    else
      solve_nums recurse g column row next_column next_row rest solution

/-- Embedding of `BacktrackingSolver::solve_rec` (solver/mod.rs lines
45-79), state-passing over the mutated grid, with explicit fuel that
decreases once per visited cell (`size * size + 1` at the entry point
is always enough: the cell index `row * size + column` increases by one
per step until `row == size`). -/
def solve_rec (fuel : Nat) (g : SudokuGrid) (column row : Nat) :
    Solution × SudokuGrid :=
  match fuel with
  | 0 => (Solution.Impossible, g)
  | fuel + 1 =>
    if row == g.size then
      (Solution.Unique g, g)
    else
      match getCellD g column row with
      | some _ =>
        solve_rec fuel g ((column + 1) % g.size)
          (if (column + 1) % g.size == 0 then row + 1 else row)
      | none =>
        solve_nums allowed conflict (solve_rec fuel) g column row
          ((column + 1) % g.size)
          (if (column + 1) % g.size == 0 then row + 1 else row)
          (List.range' 1 g.size) Solution.Impossible

/-- Embedding of the inherent `BacktrackingSolver::solve` (solver/mod.rs
lines 81-87), which runs on the mutable clone; returns the final state
of that clone as well. -/
def solveMut (g : SudokuGrid) : Solution × SudokuGrid :=
  solve_rec allowed conflict (g.size * g.size + 1) g 0 0

/-- Embedding of `<BacktrackingSolver as Solver>::solve` (solver/mod.rs
lines 89-97): the search runs on a private clone and only the Solution
is returned, so the caller's Sudoku instance is untouched. -/
def solve (g : SudokuGrid) : Solution :=
  (solveMut allowed conflict g).1

end Solver

/-- Well-formed grid: the cell vector has exactly `size * size`
entries (the invariant of spec section 3, guaranteed by `new` and
`parse`). -/
def wfGrid (g : SudokuGrid) : Prop := g.cells.length = g.size * g.size

/-- Every digit present in the grid lies in `[1, size]` (the data-model
invariant of spec section 3). -/
def digitsOk (size : Nat) (g : SudokuGrid) : Prop :=
  ∀ i n, g.cells.getD i none = some n → 1 ≤ n ∧ n ≤ size

section SolverSpec

variable (allowed : Nat → Nat → Nat → Bool)
variable (conflict : Nat × Nat × Nat → Nat × Nat × Nat → Bool)

/-- Solution grids of a puzzle: same dimensions, an extension of the
givens, full, with in-range digits, satisfying the constraint. -/
def SolutionGrid (g sol : SudokuGrid) : Prop :=
  sol.block_width = g.block_width ∧ sol.block_height = g.block_height
  ∧ sol.size = g.size ∧ sol.cells.length = g.cells.length
  ∧ digitsOk g.size sol
  ∧ (∀ i n, g.cells.getD i none = some n → sol.cells.getD i none = some n)
  ∧ (∀ i, i < sol.cells.length → sol.cells.getD i none ≠ none)
  ∧ check allowed conflict sol = true

end SolverSpec

/-- A Solution value classifies a set of grids: Impossible means the
set is empty, Unique g means it is exactly {g}, Ambiguous means it has
at least two distinct elements. -/
def Classifies (res : Solution) (S : Set SudokuGrid) : Prop :=
  match res with
  | Solution.Impossible => S = ∅
  | Solution.Unique g => S = {g}
  | Solution.Ambiguous => ∃ a ∈ S, ∃ b ∈ S, a ≠ b

theorem index_ok_of_lt {c r s : Nat} (hc : c < s) :
    index c r s = Except.ok (r * s + c) := by
  unfold index
  rw [if_pos (by simp [hc])]

theorem getCellD_eq {g : SudokuGrid} {c r : Nat} (hc : c < g.size) :
    getCellD g c r = g.cells.getD (r * g.size + c) none := by
  unfold getCellD SudokuGrid.get_cell
  rw [index_ok_of_lt hc]

theorem setCellD_eq {g : SudokuGrid} {c r n : Nat} (hc : c < g.size)
    (hn1 : 1 ≤ n) (hn2 : n ≤ g.size) :
    setCellD g c r n = { g with cells := g.cells.set (r * g.size + c) (some n) } := by
  unfold setCellD SudokuGrid.set_cell
  rw [index_ok_of_lt hc]
  dsimp only
  rw [if_neg (show ¬((n == 0 || decide (n > g.size)) = true) by simp; omega)]

theorem clearCellD_eq {g : SudokuGrid} {c r : Nat} (hc : c < g.size) :
    clearCellD g c r = { g with cells := g.cells.set (r * g.size + c) none } := by
  unfold clearCellD SudokuGrid.clear_cell
  rw [index_ok_of_lt hc]

/-! Row-major index arithmetic and list-cell lemmas shared by the
solver and generator proofs. -/

theorem rowmajor_inj {s c₁ r₁ c₂ r₂ : Nat} (h1 : c₁ < s) (h2 : c₂ < s)
    (h : r₁ * s + c₁ = r₂ * s + c₂) : c₁ = c₂ ∧ r₁ = r₂ := by
  have hs : 0 < s := Nat.lt_of_le_of_lt (Nat.zero_le c₁) h1
  have e1 : (r₁ * s + c₁) % s = c₁ := by
    rw [Nat.add_comm, Nat.mul_comm, Nat.add_mul_mod_self_left]
    exact Nat.mod_eq_of_lt h1
  have e2 : (r₂ * s + c₂) % s = c₂ := by
    rw [Nat.add_comm, Nat.mul_comm, Nat.add_mul_mod_self_left]
    exact Nat.mod_eq_of_lt h2
  have hc : c₁ = c₂ := by rw [← e1, ← e2, h]
  refine ⟨hc, ?_⟩
  subst hc
  have hmul : r₁ * s = r₂ * s := by omega
  exact Nat.eq_of_mul_eq_mul_right hs hmul

theorem idx_lt {s c r : Nat} (hc : c < s) (hr : r < s) : r * s + c < s * s :=
  calc r * s + c < r * s + s := by omega
  _ = (r + 1) * s := by ring
  _ ≤ s * s := Nat.mul_le_mul_right s hr

theorem next_idx {s c r : Nat} (hc : c < s) :
    (if (c + 1) % s == 0 then r + 1 else r) * s + (c + 1) % s
      = r * s + c + 1 := by
  have hs : 0 < s := Nat.lt_of_le_of_lt (Nat.zero_le c) hc
  by_cases h : c + 1 = s
  · subst h
    simp [Nat.mod_self]
    ring
  · have hlt : c + 1 < s := by omega
    rw [Nat.mod_eq_of_lt hlt]
    have hne : ¬((c + 1 == 0) = true) := by simp
    rw [if_neg hne]
    omega

theorem next_col_lt {s c : Nat} (hc : c < s) : (c + 1) % s < s :=
  Nat.mod_lt _ (Nat.lt_of_le_of_lt (Nat.zero_le c) hc)

theorem next_row_le {s c r : Nat} (hr : r < s) :
    (if (c + 1) % s == 0 then r + 1 else r) ≤ s := by
  by_cases h : ((c + 1) % s == 0) = true
  · rw [if_pos h]; omega
  · rw [if_neg h]; omega

theorem next_row_eq_imp {s c r : Nat} (hr : r < s) :
    (if (c + 1) % s == 0 then r + 1 else r) = s → (c + 1) % s = 0 := by
  by_cases h : ((c + 1) % s == 0) = true
  · rw [if_pos h]
    intro _
    simpa using h
  · rw [if_neg h]
    intro habs
    omega

theorem getD_set_self {l : List (Option Nat)} {i : Nat} {a : Option Nat}
    (h : i < l.length) : (l.set i a).getD i none = a := by
  simp [List.getD_eq_getElem?_getD, List.getElem?_set_self h]

theorem getD_set_ne {l : List (Option Nat)} {i k : Nat} {a : Option Nat}
    (h : i ≠ k) : (l.set i a).getD k none = l.getD k none := by
  simp [List.getD_eq_getElem?_getD, List.getElem?_set_ne h]

theorem getD_eq_some_iff {l : List (Option Nat)} {k m : Nat} :
    l.getD k none = some m ↔ l[k]? = some (some m) := by
  rw [List.getD_eq_getElem?_getD]
  cases h : l[k]? <;> simp

theorem set_none_of_getD_none {l : List (Option Nat)} {i : Nat}
    (h : l.getD i none = none) : l.set i none = l := by
  apply List.ext_getElem?
  intro k
  by_cases hk : i = k
  · subst hk
    by_cases hlt : i < l.length
    · rw [List.getElem?_set_self hlt, List.getElem?_eq_getElem hlt]
      rw [List.getD_eq_getElem?_getD, List.getElem?_eq_getElem hlt] at h
      simp at h
      rw [h]
    · rw [List.getElem?_eq_none (by simpa using Nat.le_of_not_lt hlt),
        List.getElem?_eq_none (Nat.le_of_not_lt hlt)]
  · exact List.getElem?_set_ne hk

theorem clear_set_eq {g : SudokuGrid} {c r n : Nat} (hc : c < g.size)
    (hn1 : 1 ≤ n) (hn2 : n ≤ g.size) (hcell : cellAt g c r = none) :
    clearCellD (setCellD g c r n) c r = g := by
  rw [setCellD_eq hc hn1 hn2]
  rw [@clearCellD_eq { g with cells := g.cells.set (r * g.size + c) (some n) } c r hc]
  unfold cellAt at hcell
  cases g with
  | mk bw bh s cells =>
    dsimp only at hcell ⊢
    rw [List.set_set, set_none_of_getD_none hcell]

theorem wfGrid_set {g : SudokuGrid} {idx : Nat} {v : Option Nat}
    (hwf : wfGrid g) : wfGrid { g with cells := g.cells.set idx v } := by
  unfold wfGrid at *
  simp only [List.length_set]
  exact hwf

theorem digitsOk_iff_mem {size : Nat} {g : SudokuGrid} :
    digitsOk size g ↔ ∀ m, some m ∈ g.cells → 1 ≤ m ∧ m ≤ size := by
  constructor
  · intro hd m hm
    obtain ⟨i, hi⟩ := List.mem_iff_getElem?.mp hm
    exact hd i m (getD_eq_some_iff.mpr hi)
  · intro h i m hm
    exact h m (List.getElem?_mem (getD_eq_some_iff.mp hm))

theorem digitsOk_set {size : Nat} {g : SudokuGrid} {idx n : Nat}
    (hd : digitsOk size g) (hn1 : 1 ≤ n) (hn2 : n ≤ size) :
    digitsOk size { g with cells := g.cells.set idx (some n) } := by
  rw [digitsOk_iff_mem]
  intro m hm
  simp only at hm
  rcases List.mem_or_eq_of_mem_set hm with h | h
  · exact (digitsOk_iff_mem.mp hd) m h
  · cases h
    exact ⟨hn1, hn2⟩

/-! Characterizations of check, check_cell and check_number. -/

theorem option_conflict_iff
    (conflict : Nat × Nat × Nat → Nat × Nat × Nat → Bool)
    (x : Nat × Nat × Nat) (c' r' : Nat) (o : Option Nat) :
    ((match o with
      | some m => !conflict x (c', r', m)
      | none => true) = true)
      ↔ ∀ m, o = some m → conflict x (c', r', m) = false := by
  cases o <;> simp

theorem check_number_eq_true_iff
    {allowed : Nat → Nat → Nat → Bool}
    {conflict : Nat × Nat × Nat → Nat × Nat × Nat → Bool}
    {g : SudokuGrid} {c r n : Nat} :
    check_number allowed conflict g c r n = true ↔
      allowed c r n = true ∧
      ∀ r', r' < g.size → ∀ c', c' < g.size → ¬(c' = c ∧ r' = r) →
        ∀ m, cellAt g c' r' = some m → conflict (c, r, n) (c', r', m) = false := by
  unfold check_number
  simp only [Bool.and_eq_true, List.all_eq_true, List.mem_range, Bool.or_eq_true,
    beq_iff_eq]
  constructor
  · rintro ⟨ha, h⟩
    refine ⟨ha, ?_⟩
    intro r' hr' c' hc' hne m hm
    rcases h r' hr' c' hc' with hcase | hmatch
    · exact absurd hcase hne
    · exact (option_conflict_iff conflict (c, r, n) c' r' _).mp hmatch m hm
  · rintro ⟨ha, h⟩
    refine ⟨ha, ?_⟩
    intro r' hr' c' hc'
    by_cases hne : c' = c ∧ r' = r
    · exact Or.inl hne
    · exact Or.inr ((option_conflict_iff conflict (c, r, n) c' r' _).mpr
        (h r' hr' c' hc' hne))

theorem check_eq_true_iff
    {allowed : Nat → Nat → Nat → Bool}
    {conflict : Nat × Nat × Nat → Nat × Nat × Nat → Bool}
    {g : SudokuGrid} :
    check allowed conflict g = true
      ↔ ∀ r, r < g.size → ∀ c, c < g.size →
          check_cell allowed conflict g c r = true := by
  unfold check
  simp only [List.all_eq_true, List.mem_range]

theorem check_cell_some
    {allowed : Nat → Nat → Nat → Bool}
    {conflict : Nat × Nat × Nat → Nat × Nat × Nat → Bool}
    {g : SudokuGrid} {c r m : Nat} (hm : cellAt g c r = some m) :
    check_cell allowed conflict g c r = check_number allowed conflict g c r m := by
  unfold check_cell
  rw [hm]

theorem check_cell_none
    {allowed : Nat → Nat → Nat → Bool}
    {conflict : Nat × Nat × Nat → Nat × Nat × Nat → Bool}
    {g : SudokuGrid} {c r : Nat} (hm : cellAt g c r = none) :
    check_cell allowed conflict g c r = true := by
  unfold check_cell
  rw [hm]

/-- Anti-monotonicity of the placement check: a placement that is part
of a solution grid of `g` is admissible already in `g` (which has fewer
filled cells). -/
theorem check_number_of_solution
    {allowed : Nat → Nat → Nat → Bool}
    {conflict : Nat × Nat × Nat → Nat × Nat × Nat → Bool}
    {g sol : SudokuGrid} {c r n : Nat}
    (hsol : SolutionGrid allowed conflict g sol)
    (hc : c < g.size) (hr : r < g.size)
    (hn : cellAt sol c r = some n) :
    check_number allowed conflict g c r n = true := by
  obtain ⟨hbw, hbh, hsize, hlen, hdig, hext, hfull, hchk⟩ := hsol
  have hrs : r < sol.size := by rw [hsize]; exact hr
  have hcs : c < sol.size := by rw [hsize]; exact hc
  have hcc := (check_eq_true_iff.mp hchk) r hrs c hcs
  rw [check_cell_some hn] at hcc
  rw [check_number_eq_true_iff] at hcc ⊢
  obtain ⟨ha, hconf⟩ := hcc
  refine ⟨ha, ?_⟩
  intro r' hr' c' hc' hne m hm
  have hsolm : cellAt sol c' r' = some m := by
    unfold cellAt at hm ⊢
    rw [hsize]
    exact hext _ _ hm
  exact hconf r' (by rw [hsize]; exact hr') c' (by rw [hsize]; exact hc') hne m hsolm

theorem cellAt_set {g : SudokuGrid} {c r n c' r' : Nat} (hwf : wfGrid g)
    (hc : c < g.size) (hr : r < g.size) (hc' : c' < g.size) :
    cellAt { g with cells := g.cells.set (r * g.size + c) (some n) } c' r'
      = if c' = c ∧ r' = r then some n else cellAt g c' r' := by
  unfold cellAt
  dsimp only
  by_cases h : r' * g.size + c' = r * g.size + c
  · obtain ⟨hceq, hreq⟩ := rowmajor_inj hc' hc h
    rw [if_pos ⟨hceq, hreq⟩, h, getD_set_self (by rw [hwf]; exact idx_lt hc hr)]
  · rw [if_neg ?hne, getD_set_ne (fun he => h he.symm)]
    case hne =>
      rintro ⟨rfl, rfl⟩
      exact h rfl

/-- Consistency extension: filling an admissible number into an empty
cell of a consistent grid keeps it consistent (for a symmetric pairwise
conflict relation). -/
theorem check_setCellD
    {allowed : Nat → Nat → Nat → Bool}
    {conflict : Nat × Nat × Nat → Nat × Nat × Nat → Bool}
    (hsym : ∀ x y, conflict x y = conflict y x)
    {g : SudokuGrid} {c r n : Nat}
    (hwf : wfGrid g) (hc : c < g.size) (hr : r < g.size)
    (hn1 : 1 ≤ n) (hn2 : n ≤ g.size)
    (hcell : cellAt g c r = none)
    (hchk : check allowed conflict g = true)
    (hn : check_number allowed conflict g c r n = true) :
    check allowed conflict (setCellD g c r n) = true := by
  rw [setCellD_eq hc hn1 hn2]
  rw [check_eq_true_iff]
  intro r' hr' c' hc'
  have hr'g : r' < g.size := hr'
  have hc'g : c' < g.size := hc'
  rcases hmatch : cellAt { g with cells := g.cells.set (r * g.size + c) (some n) } c' r'
    with _ | m
  · exact check_cell_none hmatch
  · rw [check_cell_some hmatch]
    rw [cellAt_set hwf hc hr hc'g] at hmatch
    rw [check_number_eq_true_iff]
    by_cases hcr : c' = c ∧ r' = r
    · rw [if_pos hcr] at hmatch
      obtain ⟨rfl, rfl⟩ := hcr
      cases hmatch
      refine ⟨(check_number_eq_true_iff.mp hn).1, ?_⟩
      intro r'' hr'' c'' hc'' hne m'' hm''
      have hr''g : r'' < g.size := hr''
      have hc''g : c'' < g.size := hc''
      rw [cellAt_set hwf hc hr hc''g] at hm''
      rw [if_neg hne] at hm''
      exact (check_number_eq_true_iff.mp hn).2 r'' hr''g c'' hc''g hne m'' hm''
    · rw [if_neg hcr] at hmatch
      have hcn : check_number allowed conflict g c' r' m = true := by
        have hch := (check_eq_true_iff.mp hchk) r' hr'g c' hc'g
        rw [check_cell_some hmatch] at hch
        exact hch
      rw [check_number_eq_true_iff] at hcn
      refine ⟨hcn.1, ?_⟩
      intro r'' hr'' c'' hc'' hne m'' hm''
      have hr''g : r'' < g.size := hr''
      have hc''g : c'' < g.size := hc''
      rw [cellAt_set hwf hc hr hc''g] at hm''
      by_cases hcr2 : c'' = c ∧ r'' = r
      · rw [if_pos hcr2] at hm''
        obtain ⟨rfl, rfl⟩ := hcr2
        cases hm''
        rw [hsym]
        exact (check_number_eq_true_iff.mp hn).2 r' hr'g c' hc'g hcr m hmatch
      · rw [if_neg hcr2] at hm''
        exact hcn.2 r'' hr''g c'' hc''g hne m'' hm''

/-! Solution-set algebra. -/

/-- Filling an empty cell restricts the solution set to those solutions
carrying exactly that digit there. -/
theorem solutionGrid_set_iff
    {allowed : Nat → Nat → Nat → Bool}
    {conflict : Nat × Nat × Nat → Nat × Nat × Nat → Bool}
    {g sol : SudokuGrid} {c r n : Nat}
    (hwf : wfGrid g) (hc : c < g.size) (hr : r < g.size)
    (hcell : cellAt g c r = none) (hn1 : 1 ≤ n) (hn2 : n ≤ g.size) :
    SolutionGrid allowed conflict (setCellD g c r n) sol
      ↔ SolutionGrid allowed conflict g sol ∧ cellAt sol c r = some n := by
  have hidx : r * g.size + c < g.cells.length := by
    rw [hwf]
    exact idx_lt hc hr
  rw [setCellD_eq hc hn1 hn2]
  unfold SolutionGrid
  dsimp only
  rw [List.length_set]
  unfold cellAt at hcell
  constructor
  · rintro ⟨h1, h2, h3, h4, h5, h6, h7, h8⟩
    have hsoln : cellAt sol c r = some n := by
      unfold cellAt
      rw [h3]
      exact h6 _ _ (getD_set_self hidx)
    refine ⟨⟨h1, h2, h3, h4, h5, ?_, h7, h8⟩, hsoln⟩
    intro i m him
    apply h6
    by_cases hi : r * g.size + c = i
    · rw [← hi] at him
      rw [hcell] at him
      cases him
    · rw [getD_set_ne hi]
      exact him
  · rintro ⟨⟨h1, h2, h3, h4, h5, h6, h7, h8⟩, hsoln⟩
    refine ⟨h1, h2, h3, h4, h5, ?_, h7, h8⟩
    intro i m him
    by_cases hi : r * g.size + c = i
    · subst hi
      rw [getD_set_self hidx] at him
      cases him
      unfold cellAt at hsoln
      rw [h3] at hsoln
      exact hsoln
    · rw [getD_set_ne hi] at him
      exact h6 i m him

/-- A full consistent grid is its own unique solution. -/
theorem solutionGrid_full_iff
    {allowed : Nat → Nat → Nat → Bool}
    {conflict : Nat × Nat × Nat → Nat × Nat × Nat → Bool}
    {g : SudokuGrid}
    (hwf : wfGrid g) (hd : digitsOk g.size g)
    (hchk : check allowed conflict g = true)
    (hfull : ∀ k, k < g.cells.length → g.cells.getD k none ≠ none) :
    ∀ sol, SolutionGrid allowed conflict g sol ↔ sol = g := by
  intro sol
  constructor
  · rintro ⟨h1, h2, h3, h4, h5, h6, h7, h8⟩
    have hcells : sol.cells = g.cells := by
      apply List.ext_getElem?
      intro k
      by_cases hk : k < g.cells.length
      · cases hgk : g.cells.getD k none with
        | none => exact absurd hgk (hfull k hk)
        | some m =>
          rw [getD_eq_some_iff.mp (h6 k m hgk), getD_eq_some_iff.mp hgk]
      · rw [List.getElem?_eq_none (Nat.le_of_not_lt hk),
          List.getElem?_eq_none (by rw [h4]; exact Nat.le_of_not_lt hk)]
    cases sol with
    | mk bw bh s cells =>
      cases g with
      | mk bw' bh' s' cells' =>
        dsimp only at h1 h2 h3 hcells
        rw [h1, h2, h3, hcells]
  · rintro rfl
    exact ⟨rfl, rfl, rfl, rfl, hd, fun i m h => h, hfull, hchk⟩

theorem classifies_union {a b : Solution} {A B : Set SudokuGrid}
    (ha : Classifies a A) (hb : Classifies b B) :
    Classifies (a.union b) (A ∪ B) := by
  cases a with
  | Impossible =>
    have hA : A = ∅ := ha
    rw [hA, Set.empty_union]
    exact hb
  | Unique ga =>
    have hA : A = {ga} := ha
    cases b with
    | Impossible =>
      have hB : B = ∅ := hb
      rw [hA, hB, Set.union_empty]
      exact rfl
    | Unique gb =>
      have hB : B = {gb} := hb
      by_cases hab : ga = gb
      · show Classifies (if ga = gb then Solution.Unique ga else Solution.Ambiguous) _
        rw [if_pos hab, hA, hB, hab, Set.union_self]
        exact rfl
      · show Classifies (if ga = gb then Solution.Unique ga else Solution.Ambiguous) _
        rw [if_neg hab]
        exact ⟨ga, by rw [hA]; exact Set.mem_union_left _ rfl,
          gb, by rw [hB]; exact Set.mem_union_right _ rfl, hab⟩
    | Ambiguous =>
      obtain ⟨x, hx, y, hy, hxy⟩ := hb
      exact ⟨x, Set.mem_union_right _ hx, y, Set.mem_union_right _ hy, hxy⟩
  | Ambiguous =>
    obtain ⟨x, hx, y, hy, hxy⟩ := ha
    exact ⟨x, Set.mem_union_left _ hx, y, Set.mem_union_left _ hy, hxy⟩

theorem classifies_ambiguous_mono {A B : Set SudokuGrid} (h : A ⊆ B)
    (ha : Classifies Solution.Ambiguous A) :
    Classifies Solution.Ambiguous B := by
  obtain ⟨x, hx, y, hy, hxy⟩ := ha
  exact ⟨x, h hx, y, h hy, hxy⟩

theorem unwrapB_is_valid_number
    {allowed : Nat → Nat → Nat → Bool}
    {conflict : Nat × Nat × Nat → Nat × Nat × Nat → Bool}
    {g : SudokuGrid} {c r n : Nat}
    (hc : c < g.size) (hr : r < g.size) (hn1 : 1 ≤ n) (hn2 : n ≤ g.size) :
    unwrapB (is_valid_number allowed conflict g c r n)
      = check_number allowed conflict g c r n := by
  unfold is_valid_number
  rw [if_neg (by simp only [Bool.or_eq_true, decide_eq_true_eq, not_or]; omega),
    if_neg (by simp only [Bool.or_eq_true, decide_eq_true_eq, beq_iff_eq, not_or]; omega)]
  rfl

/-- Correctness of the digit loop of `solve_rec`: given that the
recursive descent classifies the solution sets of the one-digit
extensions, the loop over the untried digits `ns` turns an accumulator
classifying the solutions whose digit at the current cell is already
tried into a classification of the full solution set, and it restores
the grid. -/
theorem solve_nums_spec
    (allowed : Nat → Nat → Nat → Bool)
    (conflict : Nat × Nat × Nat → Nat × Nat × Nat → Bool)
    (g : SudokuGrid) (column row : Nat)
    (hwf : wfGrid g) (hc : column < g.size) (hr : row < g.size)
    (hcell : cellAt g column row = none)
    (recurse : SudokuGrid → Nat → Nat → Solution × SudokuGrid)
    (hrec : ∀ n, 1 ≤ n → n ≤ g.size →
      check_number allowed conflict g column row n = true →
      Classifies (recurse (setCellD g column row n) ((column + 1) % g.size)
          (if (column + 1) % g.size == 0 then row + 1 else row)).1
        {sol | SolutionGrid allowed conflict (setCellD g column row n) sol}
      ∧ (recurse (setCellD g column row n) ((column + 1) % g.size)
          (if (column + 1) % g.size == 0 then row + 1 else row)).2
        = setCellD g column row n) :
    ∀ ns solution,
    (∀ m ∈ ns, 1 ≤ m ∧ m ≤ g.size) → ns.Nodup →
    Classifies solution
      {sol | SolutionGrid allowed conflict g sol
        ∧ ∀ m ∈ ns, cellAt sol column row ≠ some m} →
    Classifies (solve_nums allowed conflict recurse g column row
        ((column + 1) % g.size)
        (if (column + 1) % g.size == 0 then row + 1 else row) ns solution).1
      {sol | SolutionGrid allowed conflict g sol}
    ∧ (solve_nums allowed conflict recurse g column row
        ((column + 1) % g.size)
        (if (column + 1) % g.size == 0 then row + 1 else row) ns solution).2
      = g := by
  intro ns
  induction ns with
  | nil =>
    intro solution hns hnodup hacc
    unfold solve_nums
    have hempty : {sol | SolutionGrid allowed conflict g sol
        ∧ ∀ m ∈ ([] : List Nat), cellAt sol column row ≠ some m}
        = {sol | SolutionGrid allowed conflict g sol} := by
      ext sol
      simp
    rw [hempty] at hacc
    exact ⟨hacc, rfl⟩
  | cons n rest ih =>
    intro solution hns hnodup hacc
    have hn1 : 1 ≤ n := (hns n (List.mem_cons_self n rest)).1
    have hn2 : n ≤ g.size := (hns n (List.mem_cons_self n rest)).2
    have hnotin : n ∉ rest := (List.nodup_cons.mp hnodup).1
    unfold solve_nums
    rw [unwrapB_is_valid_number hc hr hn1 hn2]
    by_cases hvalid : check_number allowed conflict g column row n = true
    · rw [if_pos hvalid]
      dsimp only
      obtain ⟨hcls1, hsnd1⟩ := hrec n hn1 hn2 hvalid
      rw [hsnd1, clear_set_eq hc hn1 hn2 hcell]
      have hcompl : {sol | SolutionGrid allowed conflict
            (setCellD g column row n) sol}
          = {sol | SolutionGrid allowed conflict g sol
              ∧ cellAt sol column row = some n} :=
        Set.ext fun sol => solutionGrid_set_iff hwf hc hr hcell hn1 hn2
      rw [hcompl] at hcls1
      have hcls2 := classifies_union hacc hcls1
      have hsets : ({sol | SolutionGrid allowed conflict g sol
            ∧ ∀ m ∈ n :: rest, cellAt sol column row ≠ some m}
          ∪ {sol | SolutionGrid allowed conflict g sol
              ∧ cellAt sol column row = some n})
          = {sol | SolutionGrid allowed conflict g sol
              ∧ ∀ m ∈ rest, cellAt sol column row ≠ some m} := by
        ext sol
        simp only [Set.mem_union, Set.mem_setOf_eq, List.mem_cons]
        constructor
        · rintro (⟨hsg, hall⟩ | ⟨hsg, heq⟩)
          · exact ⟨hsg, fun m hm => hall m (Or.inr hm)⟩
          · refine ⟨hsg, ?_⟩
            intro m hm hcm
            rw [heq] at hcm
            cases hcm
            exact hnotin hm
        · rintro ⟨hsg, hall⟩
          cases hcand : cellAt sol column row with
          | none =>
            left
            refine ⟨hsg, ?_⟩
            intro m _ hcm
            cases hcm
          | some d =>
            by_cases hdn : d = n
            · right
              rw [hdn]
              exact ⟨hsg, rfl⟩
            · left
              refine ⟨hsg, ?_⟩
              rintro m (rfl | hm) hcm
              · cases hcm
                exact hdn rfl
              · exact hall m hm (hcand.trans hcm)
      rw [hsets] at hcls2
      by_cases hamb : solution.union (recurse (setCellD g column row n)
          ((column + 1) % g.size)
          (if (column + 1) % g.size == 0 then row + 1 else row)).1
          = Solution.Ambiguous
      · rw [if_pos hamb]
        refine ⟨?_, rfl⟩
        show Classifies (solution.union _) _
        rw [hamb]
        rw [hamb] at hcls2
        exact classifies_ambiguous_mono (fun sol hs => hs.1) hcls2
      · rw [if_neg hamb]
        exact ih _ (fun m hm => hns m (List.mem_cons_of_mem n hm))
          (List.nodup_cons.mp hnodup).2 hcls2
    · rw [if_neg hvalid]
      have hsets2 : {sol | SolutionGrid allowed conflict g sol
            ∧ ∀ m ∈ n :: rest, cellAt sol column row ≠ some m}
          = {sol | SolutionGrid allowed conflict g sol
              ∧ ∀ m ∈ rest, cellAt sol column row ≠ some m} := by
        ext sol
        simp only [Set.mem_setOf_eq, List.mem_cons]
        constructor
        · rintro ⟨hsg, hall⟩
          exact ⟨hsg, fun m hm => hall m (Or.inr hm)⟩
        · rintro ⟨hsg, hall⟩
          refine ⟨hsg, ?_⟩
          rintro m (rfl | hm) hcm
          · exact hvalid (check_number_of_solution hsg hc hr hcm)
          · exact hall m hm hcm
      rw [hsets2] at hacc
      exact ih solution (fun m hm => hns m (List.mem_cons_of_mem n hm))
        (List.nodup_cons.mp hnodup).2 hacc

/-- Correctness of `solve_rec` for a consistent partial grid: it
classifies the set of solution grids and restores the grid.  The fuel
hypothesis is satisfied by the entry point's `size * size + 1`. -/
theorem solve_rec_spec
    (allowed : Nat → Nat → Nat → Bool)
    (conflict : Nat × Nat × Nat → Nat × Nat × Nat → Bool)
    (hsym : ∀ x y, conflict x y = conflict y x) :
    ∀ fuel g column row,
    wfGrid g → digitsOk g.size g → check allowed conflict g = true →
    row ≤ g.size → (row < g.size → column < g.size) →
    (row = g.size → column = 0) →
    (∀ k, k < row * g.size + column → g.cells.getD k none ≠ none) →
    g.size * g.size + 1 ≤ row * g.size + column + fuel →
    Classifies (solve_rec allowed conflict fuel g column row).1
      {sol | SolutionGrid allowed conflict g sol}
    ∧ (solve_rec allowed conflict fuel g column row).2 = g := by
  intro fuel
  induction fuel with
  | zero =>
    intro g column row hwf hd hchk hrle hcol hc0 hpre hfuel
    exfalso
    have hle : row * g.size + column ≤ g.size * g.size := by
      rcases Nat.lt_or_ge row g.size with h | h
      · exact Nat.le_of_lt (idx_lt (hcol h) h)
      · have heq : row = g.size := Nat.le_antisymm hrle h
        rw [heq, hc0 heq]
        omega
    omega
  | succ fuel ih =>
    intro g column row hwf hd hchk hrle hcol hc0 hpre hfuel
    unfold solve_rec
    by_cases hrow : row = g.size
    · rw [if_pos (by simp [hrow])]
      refine ⟨?_, rfl⟩
      show {sol | SolutionGrid allowed conflict g sol} = {g}
      apply Set.ext
      intro sol
      rw [Set.mem_setOf_eq, Set.mem_singleton_iff]
      apply solutionGrid_full_iff hwf hd hchk
      intro k hk
      apply hpre
      rw [hrow, hc0 hrow]
      rw [hwf] at hk
      omega
    · rw [if_neg (by simp [hrow])]
      have hrlt : row < g.size := Nat.lt_of_le_of_ne hrle hrow
      have hclt : column < g.size := hcol hrlt
      rw [getCellD_eq hclt]
      cases hcase : g.cells.getD (row * g.size + column) none with
      | some m =>
        refine ih g ((column + 1) % g.size)
          (if (column + 1) % g.size == 0 then row + 1 else row)
          hwf hd hchk (next_row_le hrlt) (fun _ => next_col_lt hclt)
          (next_row_eq_imp hrlt) ?_ ?_
        · intro k hk
          rw [next_idx hclt] at hk
          by_cases hk2 : k = row * g.size + column
          · rw [hk2, hcase]
            simp
          · exact hpre k (by omega)
        · rw [next_idx hclt]
          omega
      | none =>
        apply solve_nums_spec allowed conflict g column row hwf hclt hrlt
          hcase _ ?_ (List.range' 1 g.size) Solution.Impossible ?_ ?_ ?_
        · intro n hn1 hn2 hvalid
          have hidx : row * g.size + column < g.cells.length := by
            rw [hwf]
            exact idx_lt hclt hrlt
          have hsz : (setCellD g column row n).size = g.size := by
            rw [setCellD_eq hclt hn1 hn2]
          have hcl : (setCellD g column row n).cells
              = g.cells.set (row * g.size + column) (some n) := by
            rw [setCellD_eq hclt hn1 hn2]
          refine ih (setCellD g column row n) ((column + 1) % g.size)
            (if (column + 1) % g.size == 0 then row + 1 else row)
            ?_ ?_ ?_ ?_ ?_ ?_ ?_ ?_
          · rw [setCellD_eq hclt hn1 hn2]
            exact wfGrid_set hwf
          · rw [setCellD_eq hclt hn1 hn2]
            exact digitsOk_set hd hn1 hn2
          · exact check_setCellD hsym hwf hclt hrlt hn1 hn2 hcase hchk hvalid
          · rw [hsz]
            exact next_row_le hrlt
          · rw [hsz]
            exact fun _ => next_col_lt hclt
          · rw [hsz]
            exact next_row_eq_imp hrlt
          · intro k hk
            rw [hsz, next_idx hclt] at hk
            rw [hcl]
            by_cases hk2 : row * g.size + column = k
            · rw [← hk2, getD_set_self hidx]
              simp
            · rw [getD_set_ne hk2]
              exact hpre k (by omega)
          · rw [hsz, next_idx hclt]
            omega
        · intro m hm
          rw [List.mem_range'] at hm
          obtain ⟨i, hi, rfl⟩ := hm
          omega
        · exact List.nodup_range' 1 g.size
        · show {sol | SolutionGrid allowed conflict g sol
              ∧ ∀ m ∈ List.range' 1 g.size, cellAt sol column row ≠ some m} = ∅
          rw [Set.eq_empty_iff_forall_not_mem]
          rintro sol ⟨hsg, hall⟩
          obtain ⟨h1, h2, h3, h4, h5, h6, h7, h8⟩ := hsg
          have hidx2 : row * g.size + column < sol.cells.length := by
            rw [h4, hwf]
            exact idx_lt hclt hrlt
          cases hs : sol.cells.getD (row * g.size + column) none with
          | none => exact h7 _ hidx2 hs
          | some d =>
            have hdb := h5 _ _ hs
            refine hall d ?_ ?_
            · rw [List.mem_range']
              exact ⟨d - 1, by omega, by omega⟩
            · unfold cellAt
              rw [h3]
              exact hs

/-- The trivial per-cell admissibility predicate (every placement
allowed), used to instantiate the constraint model. -/
def allowedAll : Nat → Nat → Nat → Bool := fun _ _ _ => true

/-- A row-uniqueness conflict: two placements conflict iff they are in
the same row and carry the same digit (the row rule of spec section 2,
in the pairwise constraint model). -/
def conflictRow : Nat × Nat × Nat → Nat × Nat × Nat → Bool :=
  fun x y => decide (x.2.1 = y.2.1 ∧ x.2.2 = y.2.2)

/-- A full size-2 grid whose givens violate the row constraint twice:
both rows contain a repeated digit. -/
def gBad : SudokuGrid :=
  { block_width := 2, block_height := 1, size := 2,
    cells := [some 1, some 1, some 2, some 2] }

/-- C2 counterexample: the claim quantifies over every Sudoku (grid plus
constraint) and demands Impossible whenever no full grid satisfying the
constraint extends the givens.  But `solve_rec` skips pre-filled cells
without ever validating them, so on the completely filled grid `gBad`,
whose givens already violate the row constraint, the solver returns
`Unique(gBad)` even though the puzzle has no valid solution at all. -/
theorem C2_solver_counterexample :
    solve allowedAll conflictRow gBad = Solution.Unique gBad
    ∧ ∀ sol, ¬ SolutionGrid allowedAll conflictRow gBad sol := by
  constructor
  · rfl
  · intro sol h
    obtain ⟨h1, h2, h3, h4, h5, h6, h7, h8⟩ := h
    have e0 : sol.cells.getD 0 none = some 1 := h6 0 1 rfl
    have e1 : sol.cells.getD 1 none = some 1 := h6 1 1 rfl
    have hsz : sol.size = 2 := h3
    have hc00 : cellAt sol 0 0 = some 1 := by
      unfold cellAt
      rw [show 0 * sol.size + 0 = 0 by omega]
      exact e0
    have hc10 : cellAt sol 1 0 = some 1 := by
      unfold cellAt
      rw [show 0 * sol.size + 1 = 1 by omega]
      exact e1
    have hcc := (check_eq_true_iff.mp h8) 0 (by omega) 0 (by omega)
    rw [check_cell_some hc00] at hcc
    have hfalse := (check_number_eq_true_iff.mp hcc).2 0 (by omega) 1 (by omega)
      (by simp) 1 hc10
    simp [conflictRow] at hfalse

/-- C2 (amended): for any constraint in the pairwise model of spec
section 4.3 (a per-cell admissibility predicate plus a symmetric
pairwise conflict relation), and any well-formed grid whose GIVENS
already satisfy the constraint, `BacktrackingSolver::solve` classifies
the set of solution grids exactly: Impossible iff that set is empty,
Unique s iff it is exactly the singleton of the full grid s, and
Ambiguous iff it has at least two distinct members; moreover the search
restores its working clone, so the caller's Sudoku is untouched.  The
precondition that the givens pass the check is necessary: see the
counterexample. -/
theorem C2_solver_classification
    (allowed : Nat → Nat → Nat → Bool)
    (conflict : Nat × Nat × Nat → Nat × Nat × Nat → Bool)
    (g : SudokuGrid)
    (hsym : ∀ x y, conflict x y = conflict y x)
    (hwf : wfGrid g) (hd : digitsOk g.size g)
    (hchk : check allowed conflict g = true) :
    Classifies (solve allowed conflict g)
      {sol | SolutionGrid allowed conflict g sol}
    ∧ (solveMut allowed conflict g).2 = g := by
  have h := solve_rec_spec allowed conflict hsym (g.size * g.size + 1) g 0 0
    hwf hd hchk (Nat.zero_le _) (fun h0 => h0) (fun _ => rfl)
    (fun k hk => absurd hk (by omega)) (by omega)
  exact h

/-- Witness for C2 at the empty 1x1 grid with the row constraint. -/
theorem C2_solver_classification_witness :
    Classifies (solve allowedAll conflictRow g11)
      {sol | SolutionGrid allowedAll conflictRow g11 sol}
    ∧ (solveMut allowedAll conflictRow g11).2 = g11 :=
  C2_solver_classification allowedAll conflictRow g11
    (fun x y => by
      unfold conflictRow
      rw [decide_eq_decide]
      constructor <;> (rintro ⟨a, b⟩; exact ⟨a.symm, b.symm⟩))
    (by unfold wfGrid; rfl)
    (by
      intro i m hm
      cases i with
      | zero => simp [g11] at hm
      | succ k => simp [g11, List.getD] at hm)
    (by decide)

/-! Generator (sudoku_generator.rs).  The random source (`impl Rng`) is
modelled as a predetermined stream of naturals with a cursor; any
concrete rand implementation is one such stream. -/

/-- Model of `rand::Rng`: a stream of raw draws and the current
position in it. -/
structure Rng where
  seq : Nat → Nat
  pos : Nat

/-- Model of `rng.gen_range(lo..hi)`: the next raw draw mapped into the
range, consuming one position.  (An empty range panics in Rust; the
model returns `lo` plus the raw draw, a path the callers never hit.) -/
def genRange (rng : Rng) (lo hi : Nat) : Nat × Rng :=
  (lo + rng.seq rng.pos % (hi - lo), { seq := rng.seq, pos := rng.pos + 1 })

/-- `Vec::swap(i, j)`; out-of-range indices (a panic in Rust,
unreachable from `shuffle`) leave the vector unchanged. -/
def listSwap {α : Type} (l : List α) (i j : Nat) : List α :=
  match l[i]?, l[j]? with
  | some a, some b => (l.set i b).set j a
  | _, _ => l

/-- One iteration of the shuffle loop body
`let j = rng.gen_range(i..len); vec.swap(i, j)`. -/
def shuffleStep {α : Type} (len : Nat) (acc : List α × Rng) (i : Nat) :
    List α × Rng :=
  ((listSwap acc.1 i (genRange acc.2 i len).1), (genRange acc.2 i len).2)

/-- Embedding of `shuffle` (sudoku_generator.rs lines 26-36): the
Fisher-Yates pass `for i in 0..(len - 1)`. -/
def shuffle {α : Type} (rng : Rng) (values : List α) : List α × Rng :=
  (List.range (values.length - 1)).foldl (shuffleStep values.length)
    (values, rng)

theorem listSwap_perm {α : Type} (l : List α) (i j : Nat) :
    (listSwap l i j).Perm l := by
  classical
  unfold listSwap
  cases hi : l[i]? with
  | none =>
    cases hj : l[j]? with
    | none => exact List.Perm.refl l
    | some b => exact List.Perm.refl l
  | some a =>
    cases hj : l[j]? with
    | none => exact List.Perm.refl l
    | some b =>
      dsimp only
      have hil : i < l.length := by
        by_contra hcon
        rw [List.getElem?_eq_none (Nat.le_of_not_lt hcon)] at hi
        cases hi
      have hjl : j < l.length := by
        by_contra hcon
        rw [List.getElem?_eq_none (Nat.le_of_not_lt hcon)] at hj
        cases hj
      have hia : l[i] = a := by
        rw [List.getElem?_eq_getElem hil] at hi
        cases hi
        rfl
      have hjb : l[j] = b := by
        rw [List.getElem?_eq_getElem hjl] at hj
        cases hj
        rfl
      by_cases hij : i = j
      · subst hij
        have hab : a = b := by rw [← hia, hjb]
        subst hab
        rw [List.set_set]
        have hself : l.set i a = l := by
          apply List.ext_getElem?
          intro k
          by_cases hk : i = k
          · subst hk
            rw [List.getElem?_set_self hil, List.getElem?_eq_getElem hil, hia]
          · exact List.getElem?_set_ne hk
        rw [hself]
      · rw [List.perm_iff_count]
        intro x
        rw [List.count_set a x (l.set i b) j
          (by rw [List.length_set]; exact hjl)]
        rw [List.count_set b x l i hil]
        rw [List.getElem_set_ne hij (by rw [List.length_set]; exact hjl)]
        rw [hia, hjb]
        have hmem_a : (a == x) = true → 1 ≤ List.count x l := by
          intro h
          have hax : a = x := by simpa using h
          refine List.count_pos_iff.mpr ?_
          rw [← hax, ← hia]
          exact List.getElem_mem hil
        have hmem_b : (b == x) = true → 1 ≤ List.count x l := by
          intro h
          have hbx : b = x := by simpa using h
          refine List.count_pos_iff.mpr ?_
          rw [← hbx, ← hjb]
          exact List.getElem_mem hjl
        rcases Bool.eq_false_or_eq_true (a == x) with hax | hax
        · rcases Bool.eq_false_or_eq_true (b == x) with hbx | hbx
          · have h1 := hmem_a hax
            have h2 := hmem_b hbx
            rw [hax, hbx]
            simp only [if_true, if_false, Bool.false_eq_true, eq_self_iff_true]
            omega
          · have h1 := hmem_a hax
            rw [hax, hbx]
            simp only [if_true, if_false, Bool.false_eq_true, eq_self_iff_true]
            omega
        · rcases Bool.eq_false_or_eq_true (b == x) with hbx | hbx
          · have h2 := hmem_b hbx
            rw [hax, hbx]
            simp only [if_true, if_false, Bool.false_eq_true, eq_self_iff_true]
            omega
          · rw [hax, hbx]
            simp only [if_true, if_false, Bool.false_eq_true, eq_self_iff_true]
            omega

theorem foldl_shuffleStep_perm {α : Type} (len : Nat) :
    ∀ (is : List Nat) (p : List α × Rng),
    ((is.foldl (shuffleStep len) p).1).Perm p.1 := by
  intro is
  induction is with
  | nil => intro p; exact List.Perm.refl p.1
  | cons i rest ih =>
    intro p
    exact (ih (shuffleStep len p i)).trans (listSwap_perm p.1 i _)

theorem shuffle_perm {α : Type} (rng : Rng) (values : List α) :
    ((shuffle rng values).1).Perm values :=
  foldl_shuffleStep_perm values.length (List.range (values.length - 1))
    (values, rng)

/-- C10: for every random source and every non-empty input sequence,
`shuffle` returns a permutation of the input; consequently the digits
tried at each empty cell during `fill_rec` — it shuffles `1..=size` —
are exactly 1..=size, each exactly once, in some order. -/
theorem C10_shuffle_permutation :
    (∀ (α : Type) (rng : Rng) (values : List α), values ≠ [] →
      ((shuffle rng values).1).Perm values)
    ∧ (∀ (rng : Rng) (size : Nat), 1 ≤ size →
      ((shuffle rng (List.range' 1 size)).1).Perm (List.range' 1 size)
      ∧ (∀ n, n ∈ (shuffle rng (List.range' 1 size)).1 ↔ 1 ≤ n ∧ n ≤ size)
      ∧ (shuffle rng (List.range' 1 size)).1.Nodup
      ∧ (shuffle rng (List.range' 1 size)).1.length = size) := by
  constructor
  · intro α rng values _
    exact shuffle_perm rng values
  · intro rng size _
    have hperm := shuffle_perm rng (List.range' 1 size)
    refine ⟨hperm, ?_, ?_, ?_⟩
    · intro n
      rw [hperm.mem_iff, List.mem_range']
      constructor
      · rintro ⟨i, hi, rfl⟩
        omega
      · intro h
        exact ⟨n - 1, by omega, by omega⟩
    · exact hperm.nodup_iff.mpr (List.nodup_range' 1 size)
    · rw [hperm.length_eq, List.length_range']

section Generator

variable (allowed : Nat → Nat → Nat → Bool)
variable (conflict : Nat × Nat × Nat → Nat × Nat × Nat → Bool)

/-- Embedding of the digit loop `for number in shuffle(rng, 1..=size)`
inside `Generator::fill_rec` (sudoku_generator.rs lines 62-71); the
recursive descent into the next cell is passed in as `recurse`.  On
success (`return true`) the placed digit stays; on failure the cell is
cleared and the next shuffled digit is tried. -/
def fill_nums (recurse : Rng → SudokuGrid → Nat → Nat → Bool × SudokuGrid × Rng)
    (rng : Rng) (g : SudokuGrid) (column row next_column next_row : Nat)
    (ns : List Nat) : Bool × SudokuGrid × Rng :=
  match ns with
  | [] => (false, g, rng)
  | number :: rest =>
    if unwrapB (is_valid_number allowed conflict g column row number) then
      let res := recurse rng (setCellD g column row number) next_column next_row
      if res.1 then res
      else fill_nums recurse res.2.2 (clearCellD res.2.1 column row) column row
        next_column next_row rest
    else fill_nums recurse rng g column row next_column next_row rest

/-- Embedding of `Generator::fill_rec` (sudoku_generator.rs lines
43-74), state-passing over grid and rng, with fuel decreasing once per
visited cell as in the solver embedding. -/
def fill_rec (fuel : Nat) (rng : Rng) (g : SudokuGrid) (column row : Nat) :
    Bool × SudokuGrid × Rng :=
  match fuel with
  | 0 => (false, g, rng)
  | fuel + 1 =>
    if row == g.size then
      (true, g, rng)
    else
      match getCellD g column row with
      | some _ =>
        fill_rec fuel rng g ((column + 1) % g.size)
          (if (column + 1) % g.size == 0 then row + 1 else row)
      | none =>
        fill_nums allowed conflict (fill_rec fuel)
          (shuffle rng (List.range' 1 g.size)).2 g column row
          ((column + 1) % g.size)
          (if (column + 1) % g.size == 0 then row + 1 else row)
          (shuffle rng (List.range' 1 g.size)).1

/-- Embedding of `Generator::fill` (sudoku_generator.rs lines 76-85). -/
def fill (rng : Rng) (g : SudokuGrid) : SudokuResult Unit × SudokuGrid × Rng :=
  if (fill_rec allowed conflict (g.size * g.size + 1) rng g 0 0).1 then
    (Except.ok (), (fill_rec allowed conflict (g.size * g.size + 1) rng g 0 0).2)
  else
    (Except.error SudokuError.UnsatisfiableConstraint,
      (fill_rec allowed conflict (g.size * g.size + 1) rng g 0 0).2)

/-- Embedding of `Generator::generate` (sudoku_generator.rs lines
87-99): create the empty sudoku, then fill it, propagating errors. -/
def generate (rng : Rng) (block_width block_height : Nat) :
    SudokuResult (SudokuGrid × Rng) :=
  match SudokuGrid.new block_width block_height with
  | Except.error e => Except.error e
  | Except.ok g =>
    match fill allowed conflict rng g with
    | (Except.ok _, rest) => Except.ok rest
    | (Except.error e, _) => Except.error e

end Generator

/-- Combined soundness and restoration for the digit loop of
`fill_rec`: if it reports success the final grid is a solution grid of
the current one, and if it fails every tentative assignment has been
undone. -/
theorem fill_nums_spec
    (allowed : Nat → Nat → Nat → Bool)
    (conflict : Nat × Nat × Nat → Nat × Nat × Nat → Bool)
    (g : SudokuGrid) (column row nextc nextr : Nat)
    (hwf : wfGrid g) (hc : column < g.size) (hr : row < g.size)
    (hcell : cellAt g column row = none)
    (recurse : Rng → SudokuGrid → Nat → Nat → Bool × SudokuGrid × Rng)
    (hrec : ∀ rng' n, 1 ≤ n → n ≤ g.size →
      check_number allowed conflict g column row n = true →
      ((recurse rng' (setCellD g column row n) nextc nextr).1 = true →
        SolutionGrid allowed conflict (setCellD g column row n)
          (recurse rng' (setCellD g column row n) nextc nextr).2.1)
      ∧ ((recurse rng' (setCellD g column row n) nextc nextr).1 = false →
        (recurse rng' (setCellD g column row n) nextc nextr).2.1
          = setCellD g column row n)) :
    ∀ ns rng, (∀ m ∈ ns, 1 ≤ m ∧ m ≤ g.size) →
    ((fill_nums allowed conflict recurse rng g column row nextc nextr ns).1 = true →
      SolutionGrid allowed conflict g
        (fill_nums allowed conflict recurse rng g column row nextc nextr ns).2.1)
    ∧ ((fill_nums allowed conflict recurse rng g column row nextc nextr ns).1 = false →
      (fill_nums allowed conflict recurse rng g column row nextc nextr ns).2.1 = g) := by
  intro ns
  induction ns with
  | nil =>
    intro rng hns
    unfold fill_nums
    exact ⟨fun h => Bool.noConfusion h, fun _ => rfl⟩
  | cons n rest ih =>
    intro rng hns
    have hn1 : 1 ≤ n := (hns n (List.mem_cons_self n rest)).1
    have hn2 : n ≤ g.size := (hns n (List.mem_cons_self n rest)).2
    unfold fill_nums
    rw [unwrapB_is_valid_number hc hr hn1 hn2]
    by_cases hv : check_number allowed conflict g column row n = true
    · rw [if_pos hv]
      dsimp only
      obtain ⟨hsound, hrestore⟩ := hrec rng n hn1 hn2 hv
      by_cases hres : (recurse rng (setCellD g column row n) nextc nextr).1 = true
      · rw [if_pos hres]
        constructor
        · intro _
          exact ((solutionGrid_set_iff hwf hc hr hcell hn1 hn2).mp
            (hsound hres)).1
        · intro h
          rw [hres] at h
          cases h
      · rw [if_neg hres]
        have hres' : (recurse rng (setCellD g column row n) nextc nextr).1
            = false := by
          revert hres
          cases (recurse rng (setCellD g column row n) nextc nextr).1 <;> simp
        rw [hrestore hres', clear_set_eq hc hn1 hn2 hcell]
        exact ih _ (fun m hm => hns m (List.mem_cons_of_mem n hm))
    · rw [if_neg hv]
      exact ih rng (fun m hm => hns m (List.mem_cons_of_mem n hm))

/-- Combined soundness and restoration for `fill_rec`: success yields a
solution grid of the input; failure restores the input grid exactly. -/
theorem fill_rec_spec
    (allowed : Nat → Nat → Nat → Bool)
    (conflict : Nat × Nat × Nat → Nat × Nat × Nat → Bool)
    (hsym : ∀ x y, conflict x y = conflict y x) :
    ∀ fuel rng g column row,
    wfGrid g → digitsOk g.size g → check allowed conflict g = true →
    row ≤ g.size → (row < g.size → column < g.size) →
    (row = g.size → column = 0) →
    (∀ k, k < row * g.size + column → g.cells.getD k none ≠ none) →
    ((fill_rec allowed conflict fuel rng g column row).1 = true →
      SolutionGrid allowed conflict g
        (fill_rec allowed conflict fuel rng g column row).2.1)
    ∧ ((fill_rec allowed conflict fuel rng g column row).1 = false →
      (fill_rec allowed conflict fuel rng g column row).2.1 = g) := by
  intro fuel
  induction fuel with
  | zero =>
    intro rng g column row hwf hd hchk hrle hcol hc0 hpre
    exact ⟨fun h => Bool.noConfusion h, fun _ => rfl⟩
  | succ fuel ih =>
    intro rng g column row hwf hd hchk hrle hcol hc0 hpre
    unfold fill_rec
    by_cases hrow : row = g.size
    · rw [if_pos (by simp [hrow])]
      refine ⟨fun _ => ?_, fun h => Bool.noConfusion h⟩
      refine (solutionGrid_full_iff hwf hd hchk ?_ g).mpr rfl
      intro k hk
      apply hpre
      rw [hrow, hc0 hrow]
      rw [hwf] at hk
      omega
    · rw [if_neg (by simp [hrow])]
      have hrlt : row < g.size := Nat.lt_of_le_of_ne hrle hrow
      have hclt : column < g.size := hcol hrlt
      rw [getCellD_eq hclt]
      cases hcase : g.cells.getD (row * g.size + column) none with
      | some m =>
        refine ih rng g ((column + 1) % g.size)
          (if (column + 1) % g.size == 0 then row + 1 else row)
          hwf hd hchk (next_row_le hrlt) (fun _ => next_col_lt hclt)
          (next_row_eq_imp hrlt) ?_
        intro k hk
        rw [next_idx hclt] at hk
        by_cases hk2 : k = row * g.size + column
        · rw [hk2, hcase]
          simp
        · exact hpre k (by omega)
      | none =>
        refine fill_nums_spec allowed conflict g column row
          ((column + 1) % g.size)
          (if (column + 1) % g.size == 0 then row + 1 else row)
          hwf hclt hrlt hcase (fill_rec allowed conflict fuel) ?_
          (shuffle rng (List.range' 1 g.size)).1
          (shuffle rng (List.range' 1 g.size)).2 ?_
        · intro rng' n hn1 hn2 hvalid
          have hidx : row * g.size + column < g.cells.length := by
            rw [hwf]
            exact idx_lt hclt hrlt
          have hsz : (setCellD g column row n).size = g.size := by
            rw [setCellD_eq hclt hn1 hn2]
          have hcl : (setCellD g column row n).cells
              = g.cells.set (row * g.size + column) (some n) := by
            rw [setCellD_eq hclt hn1 hn2]
          refine ih rng' (setCellD g column row n) ((column + 1) % g.size)
            (if (column + 1) % g.size == 0 then row + 1 else row)
            ?_ ?_ ?_ ?_ ?_ ?_ ?_
          · rw [setCellD_eq hclt hn1 hn2]
            exact wfGrid_set hwf
          · rw [setCellD_eq hclt hn1 hn2]
            exact digitsOk_set hd hn1 hn2
          · exact check_setCellD hsym hwf hclt hrlt hn1 hn2 hcase hchk hvalid
          · rw [hsz]
            exact next_row_le hrlt
          · rw [hsz]
            exact fun _ => next_col_lt hclt
          · rw [hsz]
            exact next_row_eq_imp hrlt
          · intro k hk
            rw [hsz, next_idx hclt] at hk
            rw [hcl]
            by_cases hk2 : row * g.size + column = k
            · rw [← hk2, getD_set_self hidx]
              simp
            · rw [getD_set_ne hk2]
              exact hpre k (by omega)
        · intro m hm
          have hmem := (shuffle_perm rng (List.range' 1 g.size)).mem_iff.mp hm
          rw [List.mem_range'] at hmem
          obtain ⟨i, hi, rfl⟩ := hmem
          omega

/-- Witness for C10: a concrete stream and a concrete list. -/
theorem C10_shuffle_permutation_witness :
    (([1, 2, 3] : List Nat) ≠ []
      ∧ ((shuffle { seq := fun k => k, pos := 0 } [1, 2, 3]).1).Perm [1, 2, 3])
    ∧ (1 ≤ 2
      ∧ ((shuffle { seq := fun k => k, pos := 0 } (List.range' 1 2)).1).Perm
          (List.range' 1 2)) :=
  ⟨⟨by simp, C10_shuffle_permutation.1 Nat { seq := fun k => k, pos := 0 }
      [1, 2, 3] (by simp)⟩,
    ⟨by omega, (C10_shuffle_permutation.2 { seq := fun k => k, pos := 0 } 2
      (by omega)).1⟩⟩

/-- C5: for every initially empty grid whose constraint (in the
pairwise model, with a symmetric conflict relation) admits no solution
grid, `Generator::fill` fails with UnsatisfiableConstraint and leaves
the grid exactly as it was — fully cleared, every tentative assignment
undone — and `generate` propagates that error. -/
theorem C5_fill_unsatisfiable
    (allowed : Nat → Nat → Nat → Bool)
    (conflict : Nat × Nat × Nat → Nat × Nat × Nat → Bool)
    (hsym : ∀ x y, conflict x y = conflict y x) :
    (∀ (rng : Rng) (g : SudokuGrid), wfGrid g →
      (∀ i, g.cells.getD i none = none) →
      (∀ sol, ¬ SolutionGrid allowed conflict g sol) →
      (fill allowed conflict rng g).1
          = Except.error SudokuError.UnsatisfiableConstraint
        ∧ (fill allowed conflict rng g).2.1 = g)
    ∧ (∀ (rng : Rng) (bw bh : Nat) (g0 : SudokuGrid),
      SudokuGrid.new bw bh = Except.ok g0 →
      (∀ sol, ¬ SolutionGrid allowed conflict g0 sol) →
      generate allowed conflict rng bw bh
        = Except.error SudokuError.UnsatisfiableConstraint) := by
  have hmain : ∀ (rng : Rng) (g : SudokuGrid), wfGrid g →
      (∀ i, g.cells.getD i none = none) →
      (∀ sol, ¬ SolutionGrid allowed conflict g sol) →
      (fill allowed conflict rng g).1
          = Except.error SudokuError.UnsatisfiableConstraint
        ∧ (fill allowed conflict rng g).2.1 = g := by
    intro rng g hwf hempty hunsat
    have hd : digitsOk g.size g := by
      intro i n h
      rw [hempty i] at h
      cases h
    have hchk : check allowed conflict g = true :=
      check_eq_true_iff.mpr (fun r _ c _ => check_cell_none (hempty _))
    obtain ⟨hsound, hrestore⟩ := fill_rec_spec allowed conflict hsym
      (g.size * g.size + 1) rng g 0 0 hwf hd hchk (Nat.zero_le _)
      (fun h => h) (fun _ => rfl) (fun k hk => absurd hk (by omega))
    unfold fill
    cases hres : (fill_rec allowed conflict (g.size * g.size + 1) rng g 0 0).1 with
    | true => exact absurd (hsound hres) (hunsat _)
    | false =>
      rw [if_neg (by simp)]
      exact ⟨rfl, hrestore hres⟩
  constructor
  · exact hmain
  · intro rng bw bh g0 hnew hunsat
    have hne := new_eq bw bh
    rw [hnew] at hne
    by_cases h0 : bw = 0 ∨ bh = 0
    · rw [if_pos h0] at hne
      cases hne
    · rw [if_neg h0] at hne
      have hg0 : g0 = { block_width := bw, block_height := bh, size := bw * bh, cells := List.replicate (bw * bh * (bw * bh)) none } :=
        (Except.ok.injEq _ _).mp hne
      have hwf0 : wfGrid g0 := by
        rw [hg0]
        unfold wfGrid
        simp
      have hempty0 : ∀ i, g0.cells.getD i none = none := by
        intro i
        rw [hg0]
        simp only [List.getD_eq_getElem?_getD]
        rcases Nat.lt_or_ge i (bw * bh * (bw * bh)) with h | h
        · rw [List.getElem?_replicate]
          rw [if_pos h]
          rfl
        · rw [List.getElem?_eq_none (by simpa using h)]
          rfl
      obtain ⟨hfill1, _⟩ := hmain rng g0 hwf0 hempty0 hunsat
      unfold generate
      rw [hnew]
      dsimp only
      cases hf : fill allowed conflict rng g0 with
      | mk fst snd =>
        rw [hf] at hfill1
        dsimp only at hfill1
        rw [hfill1]

/-- No solution grid exists for the constraint that forbids every
placement (used to witness C5). -/
theorem unsat_allowedNone_g11 :
    ∀ sol, ¬ SolutionGrid (fun _ _ _ => false) conflictRow g11 sol := by
  rintro sol ⟨h1, h2, h3, h4, h5, h6, h7, h8⟩
  have hlen : sol.cells.length = 1 := by
    rw [h4]
    rfl
  have hsz : sol.size = 1 := h3
  have hfull := h7 0 (by omega)
  cases hs : sol.cells.getD 0 none with
  | none => exact hfull hs
  | some d =>
    have hc00 : cellAt sol 0 0 = some d := by
      unfold cellAt
      rw [show 0 * sol.size + 0 = 0 by omega]
      exact hs
    have hcc := (check_eq_true_iff.mp h8) 0 (by omega) 0 (by omega)
    rw [check_cell_some hc00] at hcc
    have hallowed := (check_number_eq_true_iff.mp hcc).1
    simp at hallowed

/-- Witness for C5 at the empty 1x1 grid and the all-forbidding
constraint. -/
theorem C5_fill_unsatisfiable_witness :
    ((fill (fun _ _ _ => false) conflictRow
          { seq := fun _ => 0, pos := 0 } g11).1
        = Except.error SudokuError.UnsatisfiableConstraint
      ∧ (fill (fun _ _ _ => false) conflictRow
          { seq := fun _ => 0, pos := 0 } g11).2.1 = g11)
    ∧ generate (fun _ _ _ => false) conflictRow
          { seq := fun _ => 0, pos := 0 } 1 1
        = Except.error SudokuError.UnsatisfiableConstraint := by
  have h := C5_fill_unsatisfiable (fun _ _ _ => false) conflictRow
    (fun x y => by
      unfold conflictRow
      rw [decide_eq_decide]
      constructor <;> (rintro ⟨a, b⟩; exact ⟨a.symm, b.symm⟩))
  constructor
  · exact h.1 { seq := fun _ => 0, pos := 0 } g11
      (by unfold wfGrid; rfl)
      (by
        intro i
        cases i with
        | zero => rfl
        | succ k => rfl)
      unsat_allowedNone_g11
  · exact h.2 { seq := fun _ => 0, pos := 0 } 1 1 g11 (by rfl)
      unsat_allowedNone_g11

/-! Reducer (sudoku_generator.rs lines 120-218). -/

theorem set_of_getD_some {l : List (Option Nat)} {i d : Nat}
    (h : l.getD i none = some d) : l.set i (some d) = l := by
  apply List.ext_getElem?
  intro k
  by_cases hk : i = k
  · subst hk
    have hlt : i < l.length := by
      by_contra hcon
      rw [List.getD_eq_getElem?_getD,
        List.getElem?_eq_none (Nat.le_of_not_lt hcon)] at h
      simp at h
    rw [List.getElem?_set_self hlt]
    exact (getD_eq_some_iff.mp h).symm
  · exact List.getElem?_set_ne hk

theorem set_clear_restore {g : SudokuGrid} {c r d : Nat} (hc : c < g.size)
    (hd1 : 1 ≤ d) (hd2 : d ≤ g.size) (hcell : cellAt g c r = some d) :
    setCellD (clearCellD g c r) c r d = g := by
  rw [clearCellD_eq hc]
  rw [@setCellD_eq { g with cells := g.cells.set (r * g.size + c) none } c r d hc hd1 hd2]
  unfold cellAt at hcell
  cases g with
  | mk bw bh s cells =>
    dsimp only at hcell ⊢
    rw [List.set_set, set_of_getD_some hcell]

theorem cellAt_clear_ne {g : SudokuGrid} {c r c' r' : Nat} (hc : c < g.size)
    (hc' : c' < g.size) (hne : ¬(c' = c ∧ r' = r)) :
    cellAt (clearCellD g c r) c' r' = cellAt g c' r' := by
  rw [clearCellD_eq hc]
  unfold cellAt
  dsimp only
  rw [getD_set_ne]
  intro he
  obtain ⟨he1, he2⟩ := rowmajor_inj hc hc' he
  exact hne ⟨he1.symm, he2.symm⟩

theorem digitsOk_clear {g : SudokuGrid} {c r : Nat}
    (hd : digitsOk g.size g) (hc : c < g.size) :
    digitsOk (clearCellD g c r).size (clearCellD g c r) := by
  rw [clearCellD_eq hc]
  rw [digitsOk_iff_mem]
  intro m hm
  simp only at hm
  rcases List.mem_or_eq_of_mem_set hm with h | h
  · exact (digitsOk_iff_mem.mp hd) m h
  · cases h

/-- Embedding of `Reduction` (sudoku_generator.rs lines 131-135) over an
abstract constraint-reduction descriptor type R.  Modelled from the
spec: the Constraint trait's associated Reduction type, reduce and
revert are declared in constraint/mod.rs, but the concrete impls are
not under src/. -/
inductive Reduction (R : Type) where
  | RemoveDigit (column row : Nat)
  | ReduceConstraint (reduction : R)

/-- Embedding of `Reduction::apply` (sudoku_generator.rs lines 138-167):
the abstract solver `slv` runs on the candidate state; the change is
kept only when it still reports Unique, otherwise it is undone (digit
restored via set_cell, constraint reverted via `crevert`).  The two
unwraps on `get_cell` are modelled with defaults — unreachable under
the theorem's hypotheses (in-range, still-filled targets). -/
def Reduction.apply {R K I : Type}
    (slv : SudokuGrid → K → Solution)
    (creduce : K → SudokuGrid → R → Except Unit (I × K))
    (crevert : K → SudokuGrid → R → I → K)
    (red : Reduction R) (sudoku : SudokuGrid × K) (solution : SudokuGrid) :
    SudokuGrid × K :=
  match red with
  | Reduction.RemoveDigit column row =>
    match slv (clearCellD sudoku.1 column row) sudoku.2 with
    | Solution.Unique _ => (clearCellD sudoku.1 column row, sudoku.2)
    | _ => (setCellD (clearCellD sudoku.1 column row) column row
        ((getCellD sudoku.1 column row).getD 0), sudoku.2)
  | Reduction.ReduceConstraint r =>
    match creduce sudoku.2 solution r with
    | Except.error _ => sudoku
    | Except.ok ik =>
      match slv sudoku.1 ik.2 with
      | Solution.Unique _ => (sudoku.1, ik.2)
      | _ => (sudoku.1, crevert ik.2 solution r ik.1)

/-- Embedding of the sweep of `Reducer::reduce_with_priority`
(sudoku_generator.rs lines 205-218): the candidate list is sorted by
rng-perturbed float priorities (not statable in the model), so the
sweep is quantified over an arbitrary candidate order `rs`; `solution`
is the clone of the grid taken before the loop. -/
def reduceSweep {R K I : Type}
    (slv : SudokuGrid → K → Solution)
    (creduce : K → SudokuGrid → R → Except Unit (I × K))
    (crevert : K → SudokuGrid → R → I → K)
    (rs : List (Reduction R)) (sudoku : SudokuGrid × K)
    (solution : SudokuGrid) : SudokuGrid × K :=
  rs.foldl (fun acc red => Reduction.apply slv creduce crevert red acc solution)
    sudoku

/-- C3: for any solver, any abstract constraint state with an
exactly-reverting reduce/revert pair, any candidate order, and any
fully-filled well-formed starting sudoku whose solver classification is
Unique, the classification is still Unique after the whole reduction
sweep: each candidate reduction is kept only if the solver still
reports Unique and is undone exactly otherwise. -/
theorem C3_reduce_preserves_unique {R K I : Type}
    (slv : SudokuGrid → K → Solution)
    (creduce : K → SudokuGrid → R → Except Unit (I × K))
    (crevert : K → SudokuGrid → R → I → K)
    (hrevert : ∀ k sol r i k2, creduce k sol r = Except.ok (i, k2) →
      crevert k2 sol r i = k)
    (sol0 : SudokuGrid) :
    ∀ (rs : List (Reduction R)) (g : SudokuGrid) (k : K),
    wfGrid g → digitsOk g.size g →
    (∀ c r, Reduction.RemoveDigit c r ∈ rs → c < g.size ∧ r < g.size) →
    List.Pairwise (fun a b => ∀ c r,
      a = Reduction.RemoveDigit c r → b ≠ Reduction.RemoveDigit c r) rs →
    (∀ c r, Reduction.RemoveDigit c r ∈ rs → cellAt g c r ≠ none) →
    (∃ s, slv g k = Solution.Unique s) →
    ∃ s, slv (reduceSweep slv creduce crevert rs (g, k) sol0).1
        (reduceSweep slv creduce crevert rs (g, k) sol0).2
      = Solution.Unique s := by
  intro rs
  induction rs with
  | nil =>
    intro g k _ _ _ _ _ huniq
    exact huniq
  | cons red rest ih =>
    intro g k hwf hd htargets hpair hfilled huniq
    have htargets' : ∀ c r, Reduction.RemoveDigit c r ∈ rest →
        c < g.size ∧ r < g.size :=
      fun c r hm => htargets c r (List.mem_cons_of_mem _ hm)
    have hpair' := (List.pairwise_cons.mp hpair).2
    have hhead := (List.pairwise_cons.mp hpair).1
    have hfilled' : ∀ c r, Reduction.RemoveDigit c r ∈ rest →
        cellAt g c r ≠ none :=
      fun c r hm => hfilled c r (List.mem_cons_of_mem _ hm)
    unfold reduceSweep
    rw [List.foldl_cons]
    cases red with
    | RemoveDigit c r =>
      obtain ⟨hcs, hrs⟩ := htargets c r (List.mem_cons_self _ _)
      have hcell := hfilled c r (List.mem_cons_self _ _)
      cases hcd : cellAt g c r with
      | none => exact absurd hcd hcell
      | some d =>
        have hdb : 1 ≤ d ∧ d ≤ g.size := hd _ _ hcd
        have hget : (getCellD g c r).getD 0 = d := by
          rw [getCellD_eq hcs]
          rw [show g.cells.getD (r * g.size + c) none = some d from hcd]
          rfl
        have hsz : (clearCellD g c r).size = g.size := by
          rw [clearCellD_eq hcs]
        dsimp only [Reduction.apply]
        have hrevstep : ∃ s, slv (reduceSweep slv creduce crevert rest
            (setCellD (clearCellD g c r) c r ((getCellD g c r).getD 0), k)
            sol0).1
            (reduceSweep slv creduce crevert rest
            (setCellD (clearCellD g c r) c r ((getCellD g c r).getD 0), k)
            sol0).2 = Solution.Unique s := by
          rw [hget, set_clear_restore hcs hdb.1 hdb.2 hcd]
          exact ih g k hwf hd htargets' hpair' hfilled' huniq
        cases hslv : slv (clearCellD g c r) k with
        | Unique s2 =>
          refine ih (clearCellD g c r) k ?_ ?_ ?_ hpair' ?_ ⟨s2, hslv⟩
          · rw [clearCellD_eq hcs]
            exact wfGrid_set hwf
          · exact digitsOk_clear hd hcs
          · intro c' r' hm
            rw [hsz]
            exact htargets' c' r' hm
          · intro c' r' hm
            have hne : ¬(c' = c ∧ r' = r) := by
              rintro ⟨rfl, rfl⟩
              exact hhead _ hm c' r' rfl rfl
            rw [cellAt_clear_ne hcs (htargets' c' r' hm).1 hne]
            exact hfilled' c' r' hm
        | Impossible => exact hrevstep
        | Ambiguous => exact hrevstep
    | ReduceConstraint r =>
      dsimp only [Reduction.apply]
      cases hred : creduce k sol0 r with
      | error e =>
        exact ih g k hwf hd htargets' hpair' hfilled' huniq
      | ok ik =>
        dsimp only
        have hrev : crevert ik.2 sol0 r ik.1 = k :=
          hrevert k sol0 r ik.1 ik.2 (by rw [hred])
        cases hslv : slv g ik.2 with
        | Unique s2 =>
          exact ih g ik.2 hwf hd htargets' hpair' hfilled' ⟨s2, hslv⟩
        | Impossible =>
          rw [hrev]
          exact ih g k hwf hd htargets' hpair' hfilled' huniq
        | Ambiguous =>
          rw [hrev]
          exact ih g k hwf hd htargets' hpair' hfilled' huniq

/-- The full 1x1 grid holding the digit 1 (used to witness C3). -/
def gFull11 : SudokuGrid :=
  { block_width := 1, block_height := 1, size := 1, cells := [some 1] }

/-- Witness for C3 at the full 1x1 grid, a one-candidate sweep and the
solver that always reports Unique. -/
theorem C3_reduce_preserves_unique_witness :
    ∃ s, (fun (g : SudokuGrid) (_ : Unit) => Solution.Unique g)
        (reduceSweep (fun (g : SudokuGrid) (_ : Unit) => Solution.Unique g)
          (fun (_ : Unit) (_ : SudokuGrid) (_ : Unit) =>
            (Except.error () : Except Unit (Unit × Unit)))
          (fun (k : Unit) (_ : SudokuGrid) (_ : Unit) (_ : Unit) => k)
          [Reduction.RemoveDigit 0 0] (gFull11, ()) gFull11).1
        (reduceSweep (fun (g : SudokuGrid) (_ : Unit) => Solution.Unique g)
          (fun (_ : Unit) (_ : SudokuGrid) (_ : Unit) =>
            (Except.error () : Except Unit (Unit × Unit)))
          (fun (k : Unit) (_ : SudokuGrid) (_ : Unit) (_ : Unit) => k)
          [Reduction.RemoveDigit 0 0] (gFull11, ()) gFull11).2
      = Solution.Unique s := by
  refine C3_reduce_preserves_unique
    (fun (g : SudokuGrid) (_ : Unit) => Solution.Unique g)
    (fun (_ : Unit) (_ : SudokuGrid) (_ : Unit) =>
      (Except.error () : Except Unit (Unit × Unit)))
    (fun (k : Unit) (_ : SudokuGrid) (_ : Unit) (_ : Unit) => k)
    (fun k sol r i k2 h => Except.noConfusion h)
    gFull11 [Reduction.RemoveDigit 0 0] gFull11 () ?_ ?_ ?_ ?_ ?_ ?_
  · unfold wfGrid
    rfl
  · intro i m hm
    cases i with
    | zero =>
      simp [gFull11] at hm
      simp [gFull11, hm]
    | succ j => simp [gFull11, List.getD] at hm
  · intro c r hm
    simp [Reduction.RemoveDigit.injEq] at hm
    obtain ⟨rfl, rfl⟩ := hm
    exact ⟨by decide, by decide⟩
  · simp
  · intro c r hm
    simp [Reduction.RemoveDigit.injEq] at hm
    obtain ⟨rfl, rfl⟩ := hm
    decide
  · exact ⟨gFull11, rfl⟩

end RustPuzzle
